import Mathlib

/-!
Verification of the orchestration core of a persistent background-task queue
(source file `cq/models.py`).

The development is a shallow embedding of the Python source:

* machine-level Python values (task arguments, results) are modelled by `Val := Nat`;
* the Django database is modelled by a `Store`, a list of task records; a row
  update (`save(update_fields=...)`) becomes `Store.update`, a row re-read
  (`refresh_from_db`) becomes `Store.findId?`;
* Python exceptions escaping an operation are modelled with `Except`;
* wall-clock instants (`timezone.now()`) are passed in explicitly as naturals
  (milliseconds for `wait`, seconds elsewhere — only differences matter);
* the redis log buffer (`cache.get` of the `cq:<id>:logs` key) is passed in as a
  function `Nat → List LogEntry` from task id to the buffered entries;
* the unbounded loops of the source (`wait`'s polling loop, the recursive
  `revoke`/`success` cascades over the task graph stored in the database) take an
  explicit fuel argument; the recursion over the in-memory ancestor chain in
  `failure` is structural over the chain given as a list, mirroring the
  parent-object chain Django materialises.
-/

namespace CQ

/-- Opaque Python values carried in task arguments and results. -/
abbrev Val := Nat

/-- A function reference (Python dotted name), as a character list. -/
abbrev FName := List Char

/-- Keyword arguments of a signature, as an association list. -/
abbrev KW := List (FName × Val)

/-- Task status codes, the `Task.STATUS_*` constants of `models.py`. -/
inductive Status
  | pending
  | retry
  | queued
  | running
  | failure
  | success
  | waiting
  | incomplete
  | lost
  | revoked
  deriving DecidableEq

/-- `Task.STATUS_DONE` — the terminal statuses. -/
def STATUS_DONE : List Status :=
  [.failure, .success, .incomplete, .lost, .revoked]

/-- `Task.STATUS_ERROR` — terminal statuses other than success. -/
def STATUS_ERROR : List Status :=
  [.failure, .lost, .incomplete, .revoked]

/-- `Task.STATUS_ACTIVE` — the in-flight statuses. -/
def STATUS_ACTIVE : List Status :=
  [.pending, .queued, .running, .waiting]

/-- `Task.AT_RISK_*` codes. -/
inductive AtRisk
  | none
  | queued
  | running
  deriving DecidableEq

/-- One entry of the redis log buffer (built by `Task.log`). -/
structure LogEntry where
  message : List Char := []
  timestamp : Nat := 0
  origin : Option Nat := Option.none
  deriving DecidableEq

/-- A serialized signature: the result of `to_signature(func, args, kwargs)`.
`from_signature` is its inverse, so the embedding keeps the three components
directly. -/
structure Signature where
  func_name : FName := []
  args : List Val := []
  kwargs : KW := []
  deriving DecidableEq

/-- The `details` JSON blob of a task record: result, error information,
the materialised log snapshot and the registered error-callback signatures. -/
structure Details where
  result : Option Val := Option.none
  error : Option (List Char) := Option.none
  exception : Option (List Char) := Option.none
  traceback : Option (List Char) := Option.none
  logs : Option (List LogEntry) := Option.none
  errbacks : List Signature := []
  deriving DecidableEq

/-- One row of the `Task` table.  Foreign keys (`parent`, `previous`,
`waiting_on`) are id-valued. -/
structure TaskRec where
  id : Nat := 0
  status : Status := .pending
  signature : Signature := {}
  details : Details := {}
  parent : Option Nat := Option.none
  previous : Option Nat := Option.none
  waiting_on : Option Nat := Option.none
  submitted : Nat := 0
  started : Option Nat := Option.none
  finished : Option Nat := Option.none
  result_ttl : Nat := 1800
  result_expiry : Option Nat := Option.none
  at_risk : AtRisk := .none
  deriving DecidableEq

/-- A Python exception value as consumed by `Task.failure`: `str(err)`,
`err.__class__.__name__`, and the formatted traceback when `format_tb`
succeeds (`none` models the swallowed failure of the `try` block). -/
structure Err where
  msg : List Char := []
  cls : List Char := []
  tb : Option (List Char) := Option.none
  deriving DecidableEq

/-- Exceptions raised by the state-machine operations: the
"cannot be submitted multiple times" error of `Task.submit`, and Django's
`DoesNotExist` when a referenced row is absent. -/
inductive SubmitError
  | duplicate
  | notFound
  deriving DecidableEq

/-- Equality of `Except` results is decidable componentwise (needed to
evaluate the operations on concrete stores inside proofs). -/
instance instDecidableEqExcept {ε α : Type} [DecidableEq ε] [DecidableEq α] :
    DecidableEq (Except ε α)
  | .error e1, .error e2 =>
    if h : e1 = e2 then .isTrue (by rw [h]) else .isFalse (by simp [h])
  | .error _, .ok _ => .isFalse (by simp)
  | .ok _, .error _ => .isFalse (by simp)
  | .ok a1, .ok a2 =>
    if h : a1 = a2 then .isTrue (by rw [h]) else .isFalse (by simp [h])

/-- The database table of task records. -/
abbrev Store := List TaskRec

/-- Row lookup by primary key (`refresh_from_db` / FK dereference). -/
def Store.findId? (s : Store) (i : Nat) : Option TaskRec :=
  s.find? (fun r => r.id = i)

/-- Row update by primary key: `save` on the row with id `i`, where `f`
keeps exactly the fields named in `update_fields` from the in-memory object. -/
def Store.update (s : Store) (i : Nat) (f : TaskRec → TaskRec) : Store :=
  s.map (fun r => if r.id = i then f r else r)

/-- `self.subtasks.all()` — the rows whose `parent` is `i`. -/
def subtasksOf (s : Store) (i : Nat) : List TaskRec :=
  s.filter (fun r => r.parent = some i)

/-- `self.next.all()` — the rows whose `previous` is `i`. -/
def nextsOf (s : Store) (i : Nat) : List TaskRec :=
  s.filter (fun r => r.previous = some i)

/-- `Task.submit(self, *pre_args)` (models.py lines 102–131).

Under the per-task lock it re-reads the record (`refresh_from_db`, which
replaces every in-memory field by the stored row).  A `Revoked` row makes the
call a silent no-op; any other non-`Pending` status raises the
duplicate-submission exception.  Otherwise the status becomes `Queued`, the
`pre_args` (if any) are spliced onto the front of the stored argument list,
and only `status` and `signature` are saved.  The post-commit `send()` to the
message channel is external to the store and not modelled.  Returns the new
store together with the in-memory object as the call leaves it. -/
def Task.submit (mem : TaskRec) (db : Store) (pre_args : List Val) :
    Except SubmitError (Store × TaskRec) :=
  match Store.findId? db mem.id with
  | Option.none => .error .notFound
  | some cur =>
    if cur.status = .revoked then
      .ok (db, cur)
    else if cur.status ≠ .pending then
      .error .duplicate
    else
      let t1 : TaskRec := { cur with status := .queued }
      let t2 : TaskRec :=
        if pre_args.length > 0 then
          { t1 with signature := { t1.signature with args := pre_args ++ t1.signature.args } }
        else t1
      .ok (Store.update db mem.id
            (fun r => { r with status := t2.status, signature := t2.signature }), t2)

/-- `Task.retry(self)` (models.py lines 94–101): reset the in-memory fields to
a fresh pending state and call `submit`.  Nothing is saved before `submit`
runs, and `submit` starts with `refresh_from_db`. -/
def Task.retry (mem : TaskRec) (db : Store) : Except SubmitError (Store × TaskRec) :=
  Task.submit
    { mem with
      status := .pending
      started := Option.none
      finished := Option.none
      details := {}
      at_risk := .none }
    db []

/-- The polling loop of `Task.wait` (models.py lines 143–155).  `statusAt i`
is the status the `i`-th `refresh_from_db` observes (`i = 0` is the read done
before the loop); `endT` is the loop-invariant `end` value, `start` the
mutable `start` value; the result is the number of sleep iterations
performed.  `fuel` bounds the unbounded source loop. -/
def wait_loop (statusAt : Nat → Status) (timeout : Option Nat) (endT : Nat) :
    Nat → Nat → Nat → Nat
  | 0, _, i => i
  | fuel + 1, start, i =>
    if statusAt i ∉ STATUS_DONE ∧ (timeout = Option.none ∨ start < endT) then
      wait_loop statusAt timeout endT fuel (start + 500) (i + 1)
    else i

/-- `Task.wait(self, timeout=None)` (models.py lines 143–155), all times in
milliseconds: `start = end = now`; if a timeout is given, `start` is advanced
by it; each iteration sleeps 500ms, re-reads the record and adds 500 to
`start`.  Returns the number of sleeps performed before the loop exits. -/
def Task.wait (now : Nat) (timeout : Option Nat) (statusAt : Nat → Status)
    (fuel : Nat) : Nat :=
  let endT := now
  let start := match timeout with
    | some t => now + t
    | Option.none => now
  wait_loop statusAt timeout endT fuel start 0

/-- `Task.revoke(self)` (models.py lines 177–185), processed as a worklist.
The in-memory status is checked (no re-read happens in `revoke`); a non-Done
task is saved as `Revoked`; then every subtask row and every successor row —
fetched from the current store — is revoked recursively.  `fuel` bounds the
recursion over the stored graph (each recursive step consumes one unit, so
any sufficiently large fuel yields the source semantics; the properties
proved below hold for every fuel). -/
def revokeList : Nat → Store → List TaskRec → Store
  | 0, store, _ => store
  | fuel + 1, store, mems =>
    match mems with
    | [] => store
    | mem :: rest =>
      let store1 :=
        if mem.status ∉ STATUS_DONE then
          Store.update store mem.id (fun r => { r with status := .revoked })
        else store
      let store2 := revokeList fuel store1 (subtasksOf store1 mem.id)
      let store3 := revokeList fuel store2 (nextsOf store2 mem.id)
      revokeList fuel store3 rest

/-- `Task.revoke(self)` on a single in-memory task (see `revokeList`). -/
def Task.revoke (fuel : Nat) (store : Store) (mem : TaskRec) : Store :=
  revokeList fuel store [mem]

/-- The record mutation performed by one `Task.failure(self, err)` call
(models.py lines 264–292, up to and including the `save`): error details are
written, `Waiting` becomes `Incomplete` and anything else becomes `Failure`,
`finished` is stamped and the log buffer is materialised into `details`. -/
def failure_one (now : Nat) (cache : Nat → List LogEntry) (err : Err)
    (t : TaskRec) : TaskRec :=
  let d0 := t.details
  let d1 : Details :=
    { d0 with
      error := some err.msg
      exception := some err.cls
      traceback := match err.tb with
        | some s => some s
        | Option.none => d0.traceback }
  let st : Status := if t.status = .waiting then .incomplete else .failure
  let d2 : Details := { d1 with logs := some (cache t.id) }
  { t with details := d2, status := st, finished := some now }

/-- One invocation of a registered error callback: `func(*((self, err) +
tuple(args)), **kwargs)` (models.py lines 295–297). -/
structure EbCall where
  func_name : FName := []
  self : TaskRec := {}
  err : Err := {}
  args : List Val := []
  kwargs : KW := []
  deriving DecidableEq

/-- The error-callback invocations a single task issues in `failure`: one call
per signature in `details['errbacks']`, each passing the (already updated)
task and the error in front of the callback's own arguments. -/
def ebCalls (t : TaskRec) (err : Err) : List EbCall :=
  t.details.errbacks.map (fun eb =>
    { func_name := eb.func_name
      self := t
      err := err
      args := eb.args
      kwargs := eb.kwargs })

/-- `Task.failure(self, err)` (models.py lines 264–297) acting on the
in-memory ancestor chain `self :: parent :: grandparent :: ...`: each level
saves its own record via `failure_one`, then recurses into its parent, and
finally invokes its own error callbacks (so a level's callbacks run after the
entire ancestor cascade above it).  Returns the updated chain and the emitted
callback invocations in order. -/
def Task.failure (now : Nat) (cache : Nat → List LogEntry) (err : Err) :
    List TaskRec → List TaskRec × List EbCall
  | [] => ([], [])
  | t :: ps =>
    let t1 := failure_one now cache err t
    let rest := Task.failure now cache err ps
    (t1 :: rest.1, rest.2 ++ ebCalls t1 err)

/-- Sequential submission of a list of rows (`for next in self.next.all():
next.submit()`): a raised exception aborts the remaining iterations. -/
def submitList : List TaskRec → Store → Except SubmitError Store
  | [], st => .ok st
  | n :: ns, st =>
    match Task.submit n st [] with
    | .error e => .error e
    | .ok (st1, _) => submitList ns st1

/-- Call descriptors for the mutually recursive success path
`success → post_success → child_succeeded → success` of the source; the
recursion is run by `succRun` below on a single fuel so that concrete
executions reduce inside the kernel. -/
inductive SuccCall
  | succ (i : Nat) (result : Option Val)
  | post (i : Nat) (parentId : Option Nat) (result : Option Val)
  | child (pid childId : Nat) (result : Option Val)

/-- Interpreter for `SuccCall` descriptors.  Each of the three source
methods consumes one unit of fuel per call, so any sufficiently large fuel
yields the source semantics.

`.succ` is `Task.success(self, result=None)` (models.py lines 224–239):
status becomes `Success`, a non-`None` result is stored, `finished` is
stamped, `result_expiry := finished + result_ttl`, the log buffer is
materialised, the four fields are saved, and after commit
`post_success(self.result)` runs.

`.post` is `Task.post_success(self, result)` (models.py lines 241–245):
notify the parent via `child_succeeded`, then call `submit()` — with no
arguments — on every successor row.

`.child` is `Task.child_succeeded(self, task, result)` (models.py lines
252–262): if the child is the one being waited on and the parent is not in
an error state, the parent's stored result is overwritten; then, if every
subtask row is `Success`, the parent itself succeeds. -/
def succRun : Nat → Nat → (Nat → List LogEntry) → Store → SuccCall →
    Except SubmitError Store
  | 0, _, _, store, _ => .ok store
  | fuel + 1, now, cache, store, call =>
    match call with
    | .succ i result =>
      match Store.findId? store i with
      | Option.none => .error .notFound
      | some t =>
        let d1 : Details := match result with
          | some r => { t.details with result := some r }
          | Option.none => t.details
        let d2 : Details := { d1 with logs := some (cache i) }
        let t2 : TaskRec :=
          { t with
            status := .success
            details := d2
            finished := some now
            result_expiry := some (now + t.result_ttl) }
        let store1 := Store.update store i (fun r =>
          { r with
            status := t2.status
            details := t2.details
            finished := t2.finished
            result_expiry := t2.result_expiry })
        succRun fuel now cache store1 (.post i t2.parent t2.details.result)
    | .post i parentId result =>
      match parentId with
      | some pid =>
        match succRun fuel now cache store (.child pid i result) with
        | .error e => .error e
        | .ok store2 => submitList (nextsOf store2 i) store2
      | Option.none => submitList (nextsOf store i) store
    | .child pid childId result =>
      match Store.findId? store pid with
      | Option.none => .error .notFound
      | some p =>
        let store1 :=
          if p.waiting_on = some childId ∧ p.status ∉ STATUS_ERROR then
            Store.update store pid (fun r =>
              { r with details := { r.details with result := result } })
          else store
        if (subtasksOf store1 pid).all (fun s => s.status = .success) then
          succRun fuel now cache store1 (.succ pid Option.none)
        else .ok store1

/-- `Task.success(self, result=None)` — entry point (see `succRun`). -/
def Task.success (fuel now : Nat) (cache : Nat → List LogEntry) (store : Store)
    (i : Nat) (result : Option Val) : Except SubmitError Store :=
  succRun fuel now cache store (.succ i result)

/-- `Task.post_success(self, result)` — entry point (see `succRun`). -/
def Task.post_success (fuel now : Nat) (cache : Nat → List LogEntry)
    (store : Store) (i : Nat) (parentId : Option Nat) (result : Option Val) :
    Except SubmitError Store :=
  succRun fuel now cache store (.post i parentId result)

/-- `Task.child_succeeded(self, task, result)` — entry point (see
`succRun`). -/
def Task.child_succeeded (fuel now : Nat) (cache : Nat → List LogEntry)
    (store : Store) (pid childId : Nat) (result : Option Val) :
    Except SubmitError Store :=
  succRun fuel now cache store (.child pid childId result)

/-- The call `Task.start` makes once the signature is resolved (models.py
lines 162–175): a chained upstream `result` is prepended to the stored
positional arguments, and the task itself is passed as the `task` keyword. -/
structure Call where
  func_name : FName := []
  args : List Val := []
  task : Nat := 0
  kwargs : KW := []
  deriving DecidableEq

/-- The function invocation `Task.start(self, result=None)` performs. -/
def Task.start_call (t : TaskRec) (result : Option Val) : Call :=
  { func_name := t.signature.func_name
    args := match result with
      | some r => r :: t.signature.args
      | Option.none => t.signature.args
    task := t.id
    kwargs := t.signature.kwargs }

/-- The parent resolution at the top of `chain` (models.py lines 444–445):
an explicit parent wins; otherwise the predecessor's parent is inherited. -/
def resolvedParent (parent previous : Option TaskRec) : Option Nat :=
  match parent with
  | some p => some p.id
  | Option.none =>
    match previous with
    | some pv => pv.parent
    | Option.none => Option.none

/-- The row `Task.objects.create(signature=sig, parent=parent,
previous=previous, **task_args)` inserts at the top of `chain`
(models.py lines 446–447): a fresh `Pending` task. -/
def newTask (sig : Signature) (pid prevId : Option Nat) (now ttl newId : Nat) :
    TaskRec :=
  { id := newId
    status := .pending
    signature := sig
    parent := pid
    previous := prevId
    submitted := now
    result_ttl := ttl }

/-- `chain(func, args, kwargs, parent=None, previous=None, submit=True,
**task_args)` (models.py lines 434–453): create the new row (`Pending`), and
eagerly submit it only when a parent resolves, submission is requested, and
the parent's freshly re-read status is `Success`.  `newId` is the id the
store assigns, `now` the creation instant, `ttl` the `result_ttl` task
argument.  Returns the new store and the in-memory object of the new task. -/
def chain (store : Store) (sig : Signature) (parent previous : Option TaskRec)
    (su : Bool) (newId now ttl : Nat) : Except SubmitError (Store × TaskRec) :=
  let pid := resolvedParent parent previous
  let task : TaskRec := newTask sig pid (previous.map (fun p => p.id)) now ttl newId
  let store1 := store ++ [task]
  match pid, su with
  | some p, true =>
    match Store.findId? store1 p with
    | Option.none => .error .notFound
    | some prec =>
      if prec.status = .success then Task.submit task store1 []
      else .ok (store1, task)
  | _, _ => .ok (store1, task)

/-- `delay(func, args, kwargs, parent=None, submit=True, **task_args)`
(models.py lines 456–460): `chain` with no predecessor, then an unconditional
direct submission when requested. -/
def delay (store : Store) (sig : Signature) (parent : Option TaskRec)
    (su : Bool) (newId now ttl : Nat) : Except SubmitError (Store × TaskRec) :=
  match chain store sig parent Option.none false newId now ttl with
  | .error e => .error e
  | .ok (st1, task) =>
    if su then Task.submit task st1 [] else .ok (st1, task)

/-- Modelled from the spec: `Task.objects.active(signature__func_name=f)`
comes from `TaskManager` (`cq/managers.py`, which is not among the given
sources).  Per the spec it tests whether "there already exists an Active task
for the same function name". -/
def hasActive (store : Store) (fn : FName) : Bool :=
  store.any (fun t => decide (t.status ∈ STATUS_ACTIVE) && decide (t.signature.func_name = fn))

/-- One row of the `RepeatingTask` table. -/
structure RepeatingTask where
  crontab : List Char := []
  func_name : FName := []
  args : List Val := []
  kwargs : KW := []
  result_ttl : Nat := 1800
  last_run : Option Nat := Option.none
  next_run : Option Nat := Option.none
  coalesce : Bool := true
  deriving DecidableEq

/-- `RepeatingTask.submit(self)` (models.py lines 395–407): with coalescing
on and an active task of the same function name, return `None` immediately;
otherwise create the task unsubmitted via `delay`, set `last_run := now` and
`next_run` to the next cron instant (`cronNext` stands for the croniter
computation, external to this embedding), save both, and finally submit the
new task.  Returns the created task (if any), the updated repeating-task row
and the new store. -/
def RepeatingTask.submit (rt : RepeatingTask) (store : Store)
    (now cronNext newId : Nat) :
    Except SubmitError (Option TaskRec × RepeatingTask × Store) :=
  if rt.coalesce = true ∧ hasActive store rt.func_name = true then
    .ok (Option.none, rt, store)
  else
    match delay store { func_name := rt.func_name, args := rt.args, kwargs := rt.kwargs }
        Option.none false newId now rt.result_ttl with
    | .error e => .error e
    | .ok (st1, task) =>
      let rt1 : RepeatingTask := { rt with last_run := some now, next_run := some cronNext }
      match Task.submit task st1 [] with
      | .error e => .error e
      | .ok (st2, task2) => .ok (some task2, rt1, st2)

/-- The whitespace characters of Python's `str.strip()` / `str.split()`
(restricted to the ASCII range the cron grammar can meet). -/
def isPySpace (c : Char) : Bool :=
  c = ' ' || c = '\t' || c = '\n' || c = '\x0d' || c = '\x0b' || c = '\x0c'

/-- Python `value.strip()`. -/
def pyStrip (s : List Char) : List Char :=
  (((s.dropWhile isPySpace).reverse).dropWhile isPySpace).reverse

/-- Worker for `pySplitWs`, accumulating the current word reversed. -/
def splitWsAux : List Char → List Char → List (List Char)
  | [], acc => if acc = [] then [] else [acc.reverse]
  | c :: cs, acc =>
    if isPySpace c then
      if acc = [] then splitWsAux cs [] else acc.reverse :: splitWsAux cs []
    else splitWsAux cs (c :: acc)

/-- Python `value.split()` (no separator): split on whitespace runs, dropping
empty fields. -/
def pySplitWs (s : List Char) : List (List Char) :=
  splitWsAux s []

/-- Consume `\d+` (one or more ASCII digits) from the front; `none` if the
input does not start with a digit. -/
def munchDigits : List Char → Option (List Char)
  | [] => Option.none
  | c :: cs => if c.isDigit then some (cs.dropWhile Char.isDigit) else Option.none

/-- Consume `\d+(-\d+)?` from the front. -/
def munchItem (s : List Char) : Option (List Char) :=
  match munchDigits s with
  | Option.none => Option.none
  | some ('-' :: r2) => munchDigits r2
  | some r => some r

/-- Consume `\d+(-\d+)?(,\d+(-\d+)?)*` from the front; `fuel` bounds the
iteration (each round consumes at least one character, so `s.length + 1`
always suffices). -/
def munchItemsF : Nat → List Char → Option (List Char)
  | 0, _ => Option.none
  | fuel + 1, s =>
    match munchItem s with
    | Option.none => Option.none
    | some (',' :: r2) => munchItemsF fuel r2
    | some r => some r

/-- Whether the remainder after the alternation group matches `(/\d+)?$`:
either the end of the column, or a slash followed by digits reaching the
end. -/
def matchTail (r : List Char) : Bool :=
  match r with
  | [] => true
  | c :: r2 =>
    if c = '/' then
      match munchDigits r2 with
      | some [] => true
      | _ => false
    else false

/-- Whether a cron column matches the anchored regular expression
`^(\*|\d+(-\d+)?(,\d+(-\d+)?)*)(/\d+)?$` of `validate_cron` (models.py line
355).  The grammar is deterministic — greedy matching never needs
backtracking, because the delimiters `-`, `,`, `/` are not digits — and a
column starting with `*` can only use the star alternative. -/
def matchField (s : List Char) : Bool :=
  match s with
  | [] => false
  | c :: r =>
    if c = '*' then matchTail r
    else
      match munchItemsF ((c :: r).length + 1) (c :: r) with
      | some rest => matchTail rest
      | Option.none => false

/-- The distinct `ValidationError`s `validate_cron` can raise. -/
inductive CronError
  | strip
  | separator
  | columns
  | badField
  deriving DecidableEq

/-- `validate_cron(value)` (models.py lines 347–361): reject leading/trailing
whitespace, then require `value.split()` and `value.split(' ')` to agree
(no tabs, no runs of spaces), then exactly five columns, each matching the
cron field regular expression. -/
def validate_cron (value : List Char) : Except CronError Unit :=
  if pyStrip value ≠ value then .error .strip
  else
    let columns := pySplitWs value
    if columns ≠ value.splitOn ' ' then .error .separator
    else if columns.length ≠ 5 then .error .columns
    else if columns.all matchField then .ok () else .error .badField

/-- Single-space-separated concatenation of fields — the shape
"fields separated by single spaces" in the specification's cron grammar. -/
def joinSep : List (List Char) → List Char
  | [] => []
  | [w] => w
  | w :: ws => w ++ ' ' :: joinSep ws

/-- The alphabet of the cron field grammar: digits and the four
metacharacters.  Every string the field regular expression accepts consists
of these characters only (so fields can contain no whitespace). -/
def isGrammarChar (c : Char) : Bool :=
  c.isDigit || c = '*' || c = '-' || c = ',' || c = '/'

/-- Normalisation that forgets exactly the two columns `Task.submit` writes
(`status` and `signature`); agreement of stores under `frameFields` states
that every other stored field is untouched. -/
def frameFields (r : TaskRec) : TaskRec :=
  { r with status := .pending, signature := {} }

/-- Row-wise evolution produced by the revocation cascade: every row is
either untouched or stamped `Revoked`. -/
def StoreEvolves (s s1 : Store) : Prop :=
  ∀ k : Nat, s1[k]? = s[k]? ∨
    ∃ r, s[k]? = some r ∧ s1[k]? = some { r with status := Status.revoked }

/-- Row-wise evolution produced by the success cascade
(`success`/`post_success`/`child_succeeded` and the successor submissions):
ids, `previous` links and signatures are preserved, and a row's status either
stays, or becomes `Success` (a completed ancestor) or `Queued` (a submitted
successor). -/
def SuccEvolves (s s1 : Store) : Prop :=
  s1.map (fun r => r.id) = s.map (fun r => r.id) ∧
  ∀ (k : Nat) (r : TaskRec), s[k]? = some r → ∃ q, s1[k]? = some q ∧
    q.id = r.id ∧ q.previous = r.previous ∧ q.signature = r.signature ∧
    (q.status = r.status ∨ q.status = .success ∨ q.status = .queued)

/-- Row lookup after an id-preserving update. -/
theorem getElem?_update (s : Store) (i : Nat) (f : TaskRec → TaskRec) (k : Nat) :
    (Store.update s i f)[k]? = s[k]?.map (fun r => if r.id = i then f r else r) := by
  simp [Store.update, List.getElem?_map]

/-- A map that is blind to the fields an update touches is preserved by the
update. -/
theorem map_update {α : Type} (s : Store) (i : Nat) (f : TaskRec → TaskRec)
    (g : TaskRec → α) (hf : ∀ r, g (f r) = g r) :
    (Store.update s i f).map g = s.map g := by
  apply List.ext_getElem?
  intro n
  simp only [List.getElem?_map, getElem?_update, Option.map_map]
  cases s[n]? with
  | none => rfl
  | some r =>
    simp only [Option.map_some']
    by_cases h : r.id = i <;> simp [Function.comp, h, hf]

/-- In a store with no duplicate ids, the row found for a member's id is that
member. -/
theorem findId?_getElem? (s : Store) (k : Nat) (x : TaskRec)
    (hnd : (s.map (fun r => r.id)).Nodup) (h : s[k]? = some x) :
    Store.findId? s x.id = some x := by
  induction s generalizing k with
  | nil => simp at h
  | cons a l ih =>
    rw [List.map_cons, List.nodup_cons] at hnd
    cases k with
    | zero =>
      simp only [List.getElem?_cons_zero, Option.some_inj] at h
      subst h
      unfold Store.findId?
      rw [List.find?_cons_of_pos l (by simp)]
    | succ k =>
      simp only [List.getElem?_cons_succ] at h
      have hx : x ∈ l := List.getElem?_mem h
      have hne : ¬ (a.id = x.id) := by
        intro he
        exact hnd.1 (he ▸ List.mem_map_of_mem (fun r => r.id) hx)
      unfold Store.findId?
      rw [List.find?_cons_of_neg l (by simp [hne])]
      exact ih k hnd.2 h

/-- Lookup skips a prefix containing no row with the sought id. -/
theorem findId?_append (s1 s2 : Store) (j : Nat) (h : ∀ r ∈ s1, r.id ≠ j) :
    Store.findId? (s1 ++ s2) j = Store.findId? s2 j := by
  induction s1 with
  | nil => rfl
  | cons a l ih =>
    have ha : a.id ≠ j := h a (List.mem_cons_self a l)
    have hl : ∀ r ∈ l, r.id ≠ j := fun r hr => h r (List.mem_cons_of_mem a hr)
    unfold Store.findId?
    rw [List.cons_append, List.find?_cons_of_neg _ (by simp [ha])]
    exact ih hl

/-- Normal form of `Task.submit`: the three source branches written as a
single conditional (in the `Pending` branch the no-splice case is absorbed:
with `pre = []`, prepending is the identity on the stored signature). -/
theorem submit_eq (mem : TaskRec) (db : Store) (pre : List Val) :
    Task.submit mem db pre =
      match Store.findId? db mem.id with
      | Option.none => .error .notFound
      | some cur =>
        if cur.status = .revoked then .ok (db, cur)
        else if cur.status = .pending then
          .ok (Store.update db mem.id (fun r =>
            { r with
              status := Status.queued
              signature := { cur.signature with args := pre ++ cur.signature.args } }),
           { cur with
             status := Status.queued
             signature := { cur.signature with args := pre ++ cur.signature.args } })
        else .error .duplicate := by
  unfold Task.submit
  cases Store.findId? db mem.id with
  | none => rfl
  | some cur =>
    by_cases h1 : cur.status = .revoked
    · simp [h1]
    · by_cases h2 : cur.status = .pending
      · cases pre with
        | nil => simp [h1, h2]
        | cons a l => simp [h1, h2]
      · simp [h1, h2]

/-- C7: after the re-read under the lock, `submit` is a silent no-op on a
`Revoked` row (store and object unchanged), raises the duplicate-submission
error — without having written anything — on any other non-`Pending` row,
and transitions the row to `Queued`, splicing `pre_args` onto the stored
argument list, exactly when the row is `Pending`. -/
theorem C7_submit_status_discipline (mem : TaskRec) (db : Store) (pre : List Val)
    (c : TaskRec) (hc : Store.findId? db mem.id = some c) :
    (c.status = .revoked → Task.submit mem db pre = .ok (db, c)) ∧
    (c.status ≠ .revoked → c.status ≠ .pending →
      Task.submit mem db pre = .error .duplicate) ∧
    (c.status = .pending →
      Task.submit mem db pre = .ok
        (Store.update db mem.id (fun r =>
          { r with
            status := Status.queued
            signature := { c.signature with args := pre ++ c.signature.args } }),
         { c with
           status := Status.queued
           signature := { c.signature with args := pre ++ c.signature.args } })) := by
  refine ⟨fun h1 => ?_, fun h1 h2 => ?_, fun h1 => ?_⟩
  · rw [submit_eq, hc]
    simp [h1]
  · rw [submit_eq, hc]
    simp [h1, h2]
  · rw [submit_eq, hc]
    have hnr : c.status ≠ .revoked := by simp [h1]
    simp [h1, hnr]

/-- C7 witness: evaluation of the three cases at one-row stores. -/
theorem C7_submit_status_discipline_witness :
    (Store.findId? [{ id := 3, status := Status.pending }] 3 =
      some { id := 3, status := Status.pending } ∧
     Store.findId? [{ id := 4, status := Status.revoked }] 4 =
      some { id := 4, status := Status.revoked } ∧
     Store.findId? [{ id := 5, status := Status.success }] 5 =
      some { id := 5, status := Status.success }) ∧
    (Task.submit { id := 3, status := Status.pending }
        [{ id := 3, status := Status.pending }] [9] = .ok
      (Store.update [{ id := 3, status := Status.pending }] 3 (fun r =>
        { r with
          status := Status.queued
          signature := { args := [9] } }),
       { id := 3, status := Status.queued, signature := { args := [9] } })) ∧
    (Task.submit { id := 4, status := Status.revoked }
        [{ id := 4, status := Status.revoked }] [] =
      .ok ([{ id := 4, status := Status.revoked }], { id := 4, status := Status.revoked })) ∧
    (Task.submit { id := 5, status := Status.success }
        [{ id := 5, status := Status.success }] [] = .error .duplicate) :=
  ⟨⟨by decide, by decide, by decide⟩,
    (C7_submit_status_discipline { id := 3, status := Status.pending }
      [{ id := 3, status := Status.pending }] [9]
      { id := 3, status := Status.pending } (by decide)).2.2 (by decide),
    (C7_submit_status_discipline { id := 4, status := Status.revoked }
      [{ id := 4, status := Status.revoked }] []
      { id := 4, status := Status.revoked } (by decide)).1 (by decide),
    (C7_submit_status_discipline { id := 5, status := Status.success }
      [{ id := 5, status := Status.success }] []
      { id := 5, status := Status.success } (by decide)).2.1 (by decide) (by decide)⟩

/-- C10: `submit` depends on the in-memory object only through its id (the
re-read under the lock discards any unsaved in-memory modification), and a
successful submit changes only the `status` and `signature` columns of the
store — every other stored field of every row is untouched. -/
theorem C10_submit_frame (mem1 mem2 : TaskRec) (db : Store) (pre : List Val)
    (st : Store) (t : TaskRec) (hid : mem1.id = mem2.id) :
    Task.submit mem1 db pre = Task.submit mem2 db pre ∧
    (Task.submit mem1 db pre = .ok (st, t) →
      st.map frameFields = db.map frameFields) := by
  constructor
  · simp only [Task.submit, hid]
  · intro h
    rw [submit_eq] at h
    cases hfind : Store.findId? db mem1.id with
    | none => rw [hfind] at h; simp at h
    | some cur =>
      rw [hfind] at h
      by_cases h1 : cur.status = .revoked
      · simp [h1] at h
        rw [← h.1]
      · by_cases h2 : cur.status = .pending
        · simp [h1, h2] at h
          rw [← h.1]
          exact map_update db mem1.id _ frameFields (fun r => rfl)
        · simp [h1, h2] at h

/-- C10 witness: two objects sharing id 3 but derailed on every other field
produce the same result, and the frame of the store is preserved. -/
theorem C10_submit_frame_witness :
    Task.submit { id := 3 } [{ id := 3, details := { result := some 8 } }] [] =
      Task.submit { id := 3, status := Status.failure, started := some 11 }
        [{ id := 3, details := { result := some 8 } }] [] ∧
    (Task.submit { id := 3 } [{ id := 3, details := { result := some 8 } }] [] =
        .ok ([{ id := 3, status := Status.queued, details := { result := some 8 } }],
             { id := 3, status := Status.queued, details := { result := some 8 } }) →
      ([{ id := 3, status := Status.queued, details := { result := some 8 } }] : Store).map
          frameFields =
        ([{ id := 3, details := { result := some 8 } }] : Store).map frameFields) :=
  C10_submit_frame { id := 3 } { id := 3, status := Status.failure, started := some 11 }
    [{ id := 3, details := { result := some 8 } }] []
    [{ id := 3, status := Status.queued, details := { result := some 8 } }]
    { id := 3, status := Status.queued, details := { result := some 8 } } (by decide)

/-- C2 (code bug): `retry` mutates only the in-memory object and never saves
before calling `submit`; `submit`'s `refresh_from_db` discards the reset, so
retrying a task stored as `Failure` raises the duplicate-submission error
instead of re-queueing it, and retrying a task stored as `Revoked` silently
leaves it `Revoked`.  In neither case does the task end up `Queued`. -/
theorem C2_retry_terminal_raises :
    Task.retry { id := 3, status := Status.failure }
        [{ id := 3, status := Status.failure }] = .error .duplicate ∧
    Task.retry { id := 4, status := Status.revoked }
        [{ id := 4, status := Status.revoked }] =
      .ok ([{ id := 4, status := Status.revoked }],
           { id := 4, status := Status.revoked }) :=
  ⟨by decide, by decide⟩

/-- C4 (code bug): for every non-`None` timeout the guard `start < end` is
false from the first evaluation (`start` is `now + timeout`, `end` stays
`now`), so `wait` performs zero sleep iterations and returns immediately —
even when the observed status is never Done and the timeout has not
elapsed. -/
theorem C4_wait_timeout_returns_immediately (now t fuel : Nat)
    (statusAt : Nat → Status) :
    Task.wait now (some t) statusAt fuel = 0 := by
  cases fuel with
  | zero => rfl
  | succ n =>
    have hlt : ¬ (now + t < now) := by omega
    simp [Task.wait, wait_loop, hlt]

/-- C1 counterexample: a parent stored as `Success` (a Done status) is moved
to `Failure` by a late child's `failure()` cascade — `failure` does not guard
against Done states before overwriting the parent. -/
theorem C1_done_parent_moved_by_child_failure :
    (Task.failure 50 (fun _ => []) { msg := ['e'], cls := ['E'] }
        [{ id := 10, status := Status.running, parent := some 9 },
         { id := 9, status := Status.success }]).1.map (fun r => r.status) =
      [Status.failure, Status.failure] := by decide

/-- C3 counterexample: task 1 succeeds with result 5; its successor (task 2,
stored arguments `[7]`) is submitted and becomes `Queued`, but its stored
argument list is still `[7]` — the result 5 was not spliced to the front. -/
theorem C3_successor_args_not_spliced :
    (Task.success 3 100 (fun _ => [])
        [{ id := 1, status := Status.running, signature := { func_name := ['f'] } },
         { id := 2, status := Status.pending,
           signature := { func_name := ['g'], args := [7] }, previous := some 1 }]
        1 (some 5)).map (fun st => st.map (fun r => (r.status, r.signature.args))) =
      .ok [(Status.success, []), (Status.queued, [7])] := by decide

/-- C5 counterexample: with `coalesce` on and an Active task for the same
function, `RepeatingTask.submit` returns `None` before touching the
schedule: `last_run` stays `None` and `next_run` stays at 100 instead of
advancing to the next cron instant 260. -/
theorem C5_coalesce_does_not_advance_schedule :
    RepeatingTask.submit { func_name := ['f'], next_run := some 100 }
        [{ id := 3, status := Status.running, signature := { func_name := ['f'] } }]
        200 260 5 =
      .ok (Option.none, { func_name := ['f'], next_run := some 100 },
           [{ id := 3, status := Status.running, signature := { func_name := ['f'] } }]) := by
  decide

/-- C5 (amended): with `coalesce` on and an Active task of the same function
name, the scheduler tick creates no task and leaves the repeating-task row —
including `last_run` and `next_run` — and the store entirely unchanged. -/
theorem C5_coalesce_skips_and_leaves_schedule (rt : RepeatingTask) (store : Store)
    (now cronNext newId : Nat) (hc : rt.coalesce = true)
    (ha : hasActive store rt.func_name = true) :
    RepeatingTask.submit rt store now cronNext newId = .ok (Option.none, rt, store) := by
  simp [RepeatingTask.submit, hc, ha]

/-- C5 witness: the amended statement evaluated on a concrete store with a
running task of the same function name. -/
theorem C5_coalesce_skips_and_leaves_schedule_witness :
    ({ func_name := ['f'], next_run := some 100 } : RepeatingTask).coalesce = true ∧
    hasActive [{ id := 3, status := Status.running, signature := { func_name := ['f'] } }]
      (['f'] : FName) = true ∧
    RepeatingTask.submit { func_name := ['f'], next_run := some 100 }
        [{ id := 3, status := Status.running, signature := { func_name := ['f'] } }]
        77 88 9 =
      .ok (Option.none, { func_name := ['f'], next_run := some 100 },
           [{ id := 3, status := Status.running, signature := { func_name := ['f'] } }]) :=
  ⟨by decide, by decide,
    C5_coalesce_skips_and_leaves_schedule { func_name := ['f'], next_run := some 100 }
      [{ id := 3, status := Status.running, signature := { func_name := ['f'] } }]
      77 88 9 (by decide) (by decide)⟩

/-- The cascade updates each level of the ancestor chain by `failure_one`. -/
theorem failure_fst (now : Nat) (cache : Nat → List LogEntry) (err : Err)
    (l : List TaskRec) :
    (Task.failure now cache err l).1 = l.map (failure_one now cache err) := by
  induction l with
  | nil => rfl
  | cons t ps ih => simp [Task.failure, ih]

/-- The emitted callback invocations are exactly, for each updated task from
the root down, one call per registered errback signature. -/
theorem failure_snd (now : Nat) (cache : Nat → List LogEntry) (err : Err)
    (l : List TaskRec) :
    (Task.failure now cache err l).2 =
      (((Task.failure now cache err l).1.reverse).map (fun u => ebCalls u err)).flatten := by
  induction l with
  | nil => rfl
  | cons t ps ih =>
    simp [Task.failure, ih, List.reverse_cons, List.map_append, List.flatten_append]

/-- C8: `failure(err)` on a task with ancestor chain `chain` updates every
level `i`: status `Waiting` becomes `Incomplete` and anything else becomes
`Failure`, `finished` is stamped, the error message and exception class are
stored in `details` (with the traceback when `format_tb` succeeds), and the
emitted callback invocations are exactly one call per errback signature
registered on each updated task, each receiving that (updated) task and the
error in front of its own arguments. -/
theorem C8_failure_cascade_spec (now : Nat) (cache : Nat → List LogEntry)
    (err : Err) (chain : List TaskRec) (i : Nat) (t : TaskRec)
    (hi : chain[i]? = some t) :
    (Task.failure now cache err chain).1[i]? = some (failure_one now cache err t) ∧
    (failure_one now cache err t).status =
      (if t.status = .waiting then Status.incomplete else Status.failure) ∧
    (failure_one now cache err t).finished = some now ∧
    (failure_one now cache err t).details.error = some err.msg ∧
    (failure_one now cache err t).details.exception = some err.cls ∧
    (failure_one now cache err t).details.traceback =
      (match err.tb with
        | some s => some s
        | Option.none => t.details.traceback) ∧
    (failure_one now cache err t).details.errbacks = t.details.errbacks ∧
    (Task.failure now cache err chain).2 =
      (((Task.failure now cache err chain).1.reverse).map (fun u => ebCalls u err)).flatten := by
  refine ⟨?_, rfl, rfl, rfl, rfl, rfl, rfl, failure_snd now cache err chain⟩
  rw [failure_fst]
  simp [List.getElem?_map, hi]

/-- C8 witness: the cascade evaluated at level 1 (the parent, which is
`Waiting` and carries one errback) of a two-level chain. -/
theorem C8_failure_cascade_spec_witness :
    ([{ id := 1, status := Status.running, parent := some 2 },
      { id := 2, status := Status.waiting,
        details := { errbacks := [{ func_name := ['e'], args := [4] }] } }]
        : List TaskRec)[1]? =
      some { id := 2, status := Status.waiting,
             details := { errbacks := [{ func_name := ['e'], args := [4] }] } } ∧
    ((Task.failure 9 (fun _ => []) { msg := ['m'], cls := ['C'] }
      [{ id := 1, status := Status.running, parent := some 2 },
       { id := 2, status := Status.waiting,
         details := { errbacks := [{ func_name := ['e'], args := [4] }] } }]).1[1]? =
      some (failure_one 9 (fun _ => []) { msg := ['m'], cls := ['C'] }
        { id := 2, status := Status.waiting,
          details := { errbacks := [{ func_name := ['e'], args := [4] }] } }) ∧
     (failure_one 9 (fun _ => []) { msg := ['m'], cls := ['C'] }
        { id := 2, status := Status.waiting,
          details := { errbacks := [{ func_name := ['e'], args := [4] }] } }).status =
      (if ({ id := 2, status := Status.waiting,
             details := { errbacks := [{ func_name := ['e'], args := [4] }] } }
              : TaskRec).status = .waiting
        then Status.incomplete else Status.failure) ∧
     (failure_one 9 (fun _ => []) { msg := ['m'], cls := ['C'] }
        { id := 2, status := Status.waiting,
          details := { errbacks := [{ func_name := ['e'], args := [4] }] } }).finished =
        some 9 ∧
     (failure_one 9 (fun _ => []) { msg := ['m'], cls := ['C'] }
        { id := 2, status := Status.waiting,
          details := { errbacks := [{ func_name := ['e'], args := [4] }] } }).details.error =
        some ['m'] ∧
     (failure_one 9 (fun _ => []) { msg := ['m'], cls := ['C'] }
        { id := 2, status := Status.waiting,
          details := { errbacks := [{ func_name := ['e'], args := [4] }] } }).details.exception =
        some ['C'] ∧
     (failure_one 9 (fun _ => []) { msg := ['m'], cls := ['C'] }
        { id := 2, status := Status.waiting,
          details := { errbacks := [{ func_name := ['e'], args := [4] }] } }).details.traceback =
      (match ({ msg := ['m'], cls := ['C'] } : Err).tb with
        | some s => some s
        | Option.none =>
          ({ id := 2, status := Status.waiting,
             details := { errbacks := [{ func_name := ['e'], args := [4] }] } }
              : TaskRec).details.traceback) ∧
     (failure_one 9 (fun _ => []) { msg := ['m'], cls := ['C'] }
        { id := 2, status := Status.waiting,
          details := { errbacks := [{ func_name := ['e'], args := [4] }] } }).details.errbacks =
      ({ id := 2, status := Status.waiting,
         details := { errbacks := [{ func_name := ['e'], args := [4] }] } }
          : TaskRec).details.errbacks ∧
     (Task.failure 9 (fun _ => []) { msg := ['m'], cls := ['C'] }
      [{ id := 1, status := Status.running, parent := some 2 },
       { id := 2, status := Status.waiting,
         details := { errbacks := [{ func_name := ['e'], args := [4] }] } }]).2 =
      (((Task.failure 9 (fun _ => []) { msg := ['m'], cls := ['C'] }
        [{ id := 1, status := Status.running, parent := some 2 },
         { id := 2, status := Status.waiting,
           details := { errbacks := [{ func_name := ['e'], args := [4] }] } }]).1.reverse).map
          (fun u => ebCalls u { msg := ['m'], cls := ['C'] })).flatten) :=
  ⟨by decide,
    C8_failure_cascade_spec 9 (fun _ => []) { msg := ['m'], cls := ['C'] }
      [{ id := 1, status := Status.running, parent := some 2 },
       { id := 2, status := Status.waiting,
         details := { errbacks := [{ func_name := ['e'], args := [4] }] } }]
      1
      { id := 2, status := Status.waiting,
        details := { errbacks := [{ func_name := ['e'], args := [4] }] } }
      (by decide)⟩

/-- The revocation cascade preserves the id column. -/
theorem revokeList_map_id (fuel : Nat) :
    ∀ (mems : List TaskRec) (store : Store),
      (revokeList fuel store mems).map (fun r => r.id) = store.map (fun r => r.id) := by
  induction fuel with
  | zero => intro mems store; rfl
  | succ n ih =>
    intro mems store
    cases mems with
    | nil => rfl
    | cons mem rest =>
      simp only [revokeList]
      rw [ih, ih, ih]
      by_cases h : mem.status ∉ STATUS_DONE
      · rw [if_pos h, map_update]
        intro r
        rfl
      · rw [if_neg h]

/-- Every row is either untouched or stamped `Revoked` by the cascade:
reflexivity. -/
theorem evolves_refl (s : Store) : StoreEvolves s s := fun _ => Or.inl rfl

/-- `StoreEvolves` composes. -/
theorem evolves_trans {s1 s2 s3 : Store} (h1 : StoreEvolves s1 s2)
    (h2 : StoreEvolves s2 s3) : StoreEvolves s1 s3 := by
  intro k
  cases h1 k with
  | inl e1 =>
    cases h2 k with
    | inl e2 => exact Or.inl (e2.trans e1)
    | inr e2 =>
      obtain ⟨r, hr, hr1⟩ := e2
      exact Or.inr ⟨r, e1 ▸ hr, hr1⟩
  | inr e1 =>
    obtain ⟨r, hr, hr1⟩ := e1
    cases h2 k with
    | inl e2 => exact Or.inr ⟨r, hr, e2.trans hr1⟩
    | inr e2 =>
      obtain ⟨r2, hr2, hr3⟩ := e2
      rw [hr1] at hr2
      cases hr2
      exact Or.inr ⟨r, hr, hr3⟩

/-- A single revocation save evolves the store. -/
theorem evolves_update (s : Store) (i : Nat) :
    StoreEvolves s (Store.update s i (fun r => { r with status := Status.revoked })) := by
  intro k
  rw [getElem?_update]
  cases h : s[k]? with
  | none => exact Or.inl rfl
  | some r =>
    by_cases hid : r.id = i
    · exact Or.inr ⟨r, rfl, by simp [hid]⟩
    · exact Or.inl (by simp [hid])

/-- The whole cascade evolves the store. -/
theorem revokeList_evolves (fuel : Nat) :
    ∀ (mems : List TaskRec) (store : Store),
      StoreEvolves store (revokeList fuel store mems) := by
  induction fuel with
  | zero => intro mems store; exact evolves_refl store
  | succ n ih =>
    intro mems store
    cases mems with
    | nil => exact evolves_refl store
    | cons mem rest =>
      simp only [revokeList]
      refine evolves_trans ?_ (evolves_trans (ih _ _) (evolves_trans (ih _ _) (ih _ _)))
      by_cases h : mem.status ∉ STATUS_DONE
      · rw [if_pos h]; exact evolves_update store mem.id
      · rw [if_neg h]; exact evolves_refl store

/-- In a store with no duplicate ids, two rows with the same id coincide. -/
theorem eq_of_getElem?_of_mem_of_id (s : Store) (j : Nat) (r c : TaskRec)
    (hnd : (s.map (fun x => x.id)).Nodup) (hj : s[j]? = some r) (hc : c ∈ s)
    (hid : r.id = c.id) : r = c := by
  obtain ⟨j2, hj2⟩ := List.getElem?_of_mem hc
  have h1 := findId?_getElem? s j r hnd hj
  have h2 := findId?_getElem? s j2 c hnd hj2
  rw [hid] at h1
  rw [h1] at h2
  exact Option.some_inj.mp h2

/-- A row already stamped `Revoked` is fixed by the revocation save. -/
theorem revoked_fix (r : TaskRec) (h : r.status = Status.revoked) :
    ({ r with status := Status.revoked } : TaskRec) = r := by
  rw [← h]

/-- Core preservation lemma: rows whose stored status is Done are never
changed by the revocation cascade, provided ids are unique and every
in-memory object in the worklist is consistent with the store (a stale
worklist object over a Done row can only disagree when that row is already
`Revoked`, in which case the save writes the identical row back). -/
theorem revokeList_preserves_done (fuel : Nat) :
    ∀ (mems : List TaskRec) (store : Store),
      (store.map (fun x => x.id)).Nodup →
      (∀ m ∈ mems, ∀ (j : Nat) (r : TaskRec), store[j]? = some r → r.id = m.id →
        r.status ∈ STATUS_DONE → m.status ∈ STATUS_DONE ∨ r.status = Status.revoked) →
      ∀ (k : Nat) (r : TaskRec), store[k]? = some r → r.status ∈ STATUS_DONE →
        (revokeList fuel store mems)[k]? = some r := by
  induction fuel with
  | zero => intro mems store _ _ k r hk _; exact hk
  | succ n ih =>
    intro mems store hnd hcons k r hk hdone
    cases mems with
    | nil => exact hk
    | cons mem rest =>
      simp only [revokeList]
      have hstep : ∀ (k2 : Nat) (r2 : TaskRec), store[k2]? = some r2 → r2.status ∈ STATUS_DONE →
          (if mem.status ∉ STATUS_DONE then
            Store.update store mem.id (fun x => { x with status := Status.revoked })
          else store)[k2]? = some r2 := by
        intro k2 r2 hk2 hd2
        by_cases hc : mem.status ∉ STATUS_DONE
        · rw [if_pos hc, getElem?_update, hk2]
          by_cases hid : r2.id = mem.id
          · cases hcons mem (List.mem_cons_self mem rest) k2 r2 hk2 hid hd2 with
            | inl hmd => exact absurd hmd hc
            | inr hrv =>
              simp only [Option.map_some']
              rw [if_pos hid, revoked_fix r2 hrv]
          · simp [hid]
        · rw [if_neg hc]; exact hk2
      set store1 := (if mem.status ∉ STATUS_DONE then
        Store.update store mem.id (fun x => { x with status := Status.revoked })
      else store) with hs1
      have hnd1 : (store1.map (fun x => x.id)).Nodup := by
        rw [hs1]
        by_cases hc : mem.status ∉ STATUS_DONE
        · rw [if_pos hc, map_update]
          · exact hnd
          · intro x; rfl
        · rw [if_neg hc]; exact hnd
      have hconsOf : ∀ (s2 : Store), (s2.map (fun x => x.id)).Nodup →
          ∀ ns2 : List TaskRec, (∀ m2 ∈ ns2, m2 ∈ s2) →
          ∀ m2 ∈ ns2, ∀ (j : Nat) (r2 : TaskRec), s2[j]? = some r2 → r2.id = m2.id →
            r2.status ∈ STATUS_DONE → m2.status ∈ STATUS_DONE ∨ r2.status = Status.revoked :=
        fun s2 hnd2 ns2 hsub m2 hm2 j r2 hj hid hd2 =>
          Or.inl ((eq_of_getElem?_of_mem_of_id s2 j r2 m2 hnd2 hj (hsub m2 hm2) hid) ▸ hd2)
      have h1 : ∀ (k2 : Nat) (r2 : TaskRec), store[k2]? = some r2 → r2.status ∈ STATUS_DONE →
          store1[k2]? = some r2 := hstep
      have h2 : ∀ (k2 : Nat) (r2 : TaskRec), store[k2]? = some r2 → r2.status ∈ STATUS_DONE →
          (revokeList n store1 (subtasksOf store1 mem.id))[k2]? = some r2 :=
        fun k2 r2 hk2 hd2 =>
          ih (subtasksOf store1 mem.id) store1 hnd1
            (hconsOf store1 hnd1 (subtasksOf store1 mem.id)
              (fun m2 hm2 => List.mem_of_mem_filter hm2))
            k2 r2 (h1 k2 r2 hk2 hd2) hd2
      set store2 := revokeList n store1 (subtasksOf store1 mem.id) with hs2
      have hnd2 : (store2.map (fun x => x.id)).Nodup := by
        rw [hs2, revokeList_map_id]; exact hnd1
      have h3 : ∀ (k2 : Nat) (r2 : TaskRec), store[k2]? = some r2 → r2.status ∈ STATUS_DONE →
          (revokeList n store2 (nextsOf store2 mem.id))[k2]? = some r2 :=
        fun k2 r2 hk2 hd2 =>
          ih (nextsOf store2 mem.id) store2 hnd2
            (hconsOf store2 hnd2 (nextsOf store2 mem.id)
              (fun m2 hm2 => List.mem_of_mem_filter hm2))
            k2 r2 (h2 k2 r2 hk2 hd2) hd2
      set store3 := revokeList n store2 (nextsOf store2 mem.id) with hs3
      have hnd3 : (store3.map (fun x => x.id)).Nodup := by
        rw [hs3, revokeList_map_id]; exact hnd2
      have hev : StoreEvolves store store3 := by
        rw [hs3, hs2, hs1]
        refine evolves_trans ?_
          (evolves_trans (revokeList_evolves n _ _) (revokeList_evolves n _ _))
        by_cases hc : mem.status ∉ STATUS_DONE
        · rw [if_pos hc]; exact evolves_update store mem.id
        · rw [if_neg hc]; exact evolves_refl store
      have hconsRest : ∀ m2 ∈ rest, ∀ (j : Nat) (r2 : TaskRec), store3[j]? = some r2 → r2.id = m2.id →
          r2.status ∈ STATUS_DONE → m2.status ∈ STATUS_DONE ∨ r2.status = Status.revoked := by
        intro m2 hm2 j r2 hj hid hd2
        cases hev j with
        | inl e =>
          rw [e] at hj
          exact hcons m2 (List.mem_cons_of_mem mem hm2) j r2 hj hid hd2
        | inr e =>
          obtain ⟨r0, hr0, hr0'⟩ := e
          rw [hr0'] at hj
          have e2 : ({ r0 with status := Status.revoked } : TaskRec) = r2 :=
            Option.some_inj.mp hj
          exact Or.inr (e2 ▸ rfl)
      exact ih rest store3 hnd3 hconsRest k r (h3 k r hk hdone) hdone

/-- C1 (amended): of the state-machine operations, exactly `submit` and
`revoke` guard Done states.  `submit` on a task whose stored status is Done
either returns silently with the store untouched (`Revoked`) or raises the
duplicate-submission error before writing anything; `revoke` never changes a
row whose stored status is Done (hypotheses: primary keys are unique and the
revoked object is a store row, i.e. not stale).  The other operations
(`failure`, `success`, `child_succeeded`, `start`, `waiting`) have no such
guard — see the counterexample, where a `Success` parent is moved to
`Failure` by a late child's `failure()` cascade. -/
theorem C1_submit_revoke_preserve_done :
    (∀ (mem : TaskRec) (db : Store) (pre : List Val) (c : TaskRec),
      Store.findId? db mem.id = some c → c.status ∈ STATUS_DONE →
      Task.submit mem db pre = .ok (db, c) ∨
        Task.submit mem db pre = .error .duplicate) ∧
    (∀ (fuel : Nat) (store : Store) (mem : TaskRec) (k : Nat) (r : TaskRec),
      (store.map (fun x => x.id)).Nodup → mem ∈ store →
      store[k]? = some r → r.status ∈ STATUS_DONE →
      (Task.revoke fuel store mem)[k]? = some r) := by
  constructor
  · intro mem db pre c hc hdone
    rw [submit_eq, hc]
    by_cases h1 : c.status = .revoked
    · exact Or.inl (by simp [h1])
    · have h2 : c.status ≠ .pending := by
        intro hp
        rw [hp] at hdone
        simp [STATUS_DONE] at hdone
      exact Or.inr (by simp [h1, h2])
  · intro fuel store mem k r hnd hmem hk hdone
    unfold Task.revoke
    refine revokeList_preserves_done fuel [mem] store hnd ?_ k r hk hdone
    intro m hm j r2 hj hid hd2
    have hm2 : m = mem := by
      cases hm with
      | head => rfl
      | tail _ h => cases h
    subst hm2
    exact Or.inl ((eq_of_getElem?_of_mem_of_id store j r2 m hnd hj hmem hid) ▸ hd2)

/-- C1 witness: `submit` on a one-row store whose row is `Revoked`, and
`revoke` over a store whose root row is already `Success` with a `Pending`
child: the Done row is untouched. -/
theorem C1_submit_revoke_preserve_done_witness :
    (Store.findId? [{ id := 1, status := Status.revoked }] 1 =
      some { id := 1, status := Status.revoked } ∧
     ({ id := 1, status := Status.revoked } : TaskRec).status ∈ STATUS_DONE ∧
     (([{ id := 2, status := Status.success },
        { id := 3, status := Status.pending, parent := some 2 }] : Store).map
          (fun x => x.id)).Nodup ∧
     ({ id := 2, status := Status.success } : TaskRec) ∈
       ([{ id := 2, status := Status.success },
         { id := 3, status := Status.pending, parent := some 2 }] : Store) ∧
     ([{ id := 2, status := Status.success },
       { id := 3, status := Status.pending, parent := some 2 }] : Store)[0]? =
       some { id := 2, status := Status.success }) ∧
    (Task.submit { id := 1, status := Status.revoked }
        [{ id := 1, status := Status.revoked }] [] =
        .ok ([{ id := 1, status := Status.revoked }],
             { id := 1, status := Status.revoked }) ∨
     Task.submit { id := 1, status := Status.revoked }
        [{ id := 1, status := Status.revoked }] [] = .error .duplicate) ∧
    (Task.revoke 4
        [{ id := 2, status := Status.success },
         { id := 3, status := Status.pending, parent := some 2 }]
        { id := 2, status := Status.success })[0]? =
      some { id := 2, status := Status.success } :=
  ⟨⟨by decide, by decide, by decide, by decide, by decide⟩,
    C1_submit_revoke_preserve_done.1 { id := 1, status := Status.revoked }
      [{ id := 1, status := Status.revoked }] []
      { id := 1, status := Status.revoked } (by decide) (by decide),
    C1_submit_revoke_preserve_done.2 4
      [{ id := 2, status := Status.success },
       { id := 3, status := Status.pending, parent := some 2 }]
      { id := 2, status := Status.success } 0 { id := 2, status := Status.success }
      (by decide) (by decide) (by decide) (by decide)⟩

/-- Lookup through an id-preserving update. -/
theorem findId?_update (s : Store) (i : Nat) (f : TaskRec → TaskRec) (j : Nat)
    (hf : ∀ r, (f r).id = r.id) :
    Store.findId? (Store.update s i f) j =
      (Store.findId? s j).map (fun r => if r.id = i then f r else r) := by
  induction s with
  | nil => rfl
  | cons a l ih =>
    show Store.findId? ((if a.id = i then f a else a) :: Store.update l i f) j = _
    have hsame : (if a.id = i then f a else a).id = a.id := by
      by_cases hi : a.id = i
      · rw [if_pos hi, hf]
      · rw [if_neg hi]
    by_cases hj : a.id = j
    · have hyes : (if a.id = i then f a else a).id = j := by rw [hsame, hj]
      unfold Store.findId?
      rw [List.find?_cons_of_pos _ (by simp [hyes]),
          List.find?_cons_of_pos _ (by simp [hj])]
      simp
    · have hno : ¬ ((if a.id = i then f a else a).id = j) := by rw [hsame]; exact hj
      unfold Store.findId?
      rw [List.find?_cons_of_neg _ (by simp [hno]),
          List.find?_cons_of_neg _ (by simp [hj])]
      exact ih

/-- Appending a row with a different id does not change a lookup. -/
theorem findId?_append_singleton (s : Store) (x : TaskRec) (j : Nat)
    (hx : x.id ≠ j) :
    Store.findId? (s ++ [x]) j = Store.findId? s j := by
  induction s with
  | nil =>
    unfold Store.findId?
    rw [List.nil_append, List.find?_cons_of_neg _ (by simp [hx])]
  | cons a l ih =>
    by_cases hj : a.id = j
    · unfold Store.findId?
      rw [List.cons_append, List.find?_cons_of_pos _ (by simp [hj]),
          List.find?_cons_of_pos _ (by simp [hj])]
    · unfold Store.findId?
      rw [List.cons_append, List.find?_cons_of_neg _ (by simp [hj]),
          List.find?_cons_of_neg _ (by simp [hj])]
      exact ih

/-- C6 (amended): the eager-submission decision at `chain()` time is made
from the resolved parent — the explicit one, or the predecessor's parent —
and not from the predecessor's own status.  The new task is created with the
given signature, `previous` link and resolved parent; it ends up `Queued`
exactly when submission was requested and the resolved parent's stored
status is `Success`, and `Pending` otherwise (in particular, chaining onto a
parentless predecessor always leaves it `Pending`; successors left `Pending`
are submitted later by the predecessor's `post_success` loop — see C3's
theorem). -/
theorem C6_chain_gates_on_parent_status (store : Store) (sig : Signature)
    (parent previous : Option TaskRec) (su : Bool) (newId now ttl : Nat)
    (st : Store) (t : TaskRec)
    (hfresh : ∀ r ∈ store, r.id ≠ newId)
    (hpid : resolvedParent parent previous ≠ some newId)
    (h : chain store sig parent previous su newId now ttl = .ok (st, t)) :
    t.id = newId ∧ t.signature = sig ∧
    t.previous = previous.map (fun p => p.id) ∧
    t.parent = resolvedParent parent previous ∧
    Store.findId? st newId = some t ∧
    (t.status = .queued ∨ t.status = .pending) ∧
    (t.status = .queued ↔
      su = true ∧ ∃ pid prec, resolvedParent parent previous = some pid ∧
        Store.findId? store pid = some prec ∧ prec.status = .success) := by
  have htask : ∀ (pid : Option Nat),
      Store.findId?
          (store ++ [newTask sig pid (previous.map (fun p => p.id)) now ttl newId])
          newId =
        some (newTask sig pid (previous.map (fun p => p.id)) now ttl newId) := by
    intro pid
    rw [findId?_append _ _ _ (by simpa using hfresh)]
    unfold Store.findId?
    rw [List.find?_cons_of_pos _ (by simp [newTask])]
  cases hp : resolvedParent parent previous with
  | none =>
    cases su with
    | false =>
      simp only [chain, hp] at h
      cases h
      exact ⟨rfl, rfl, rfl, rfl, htask Option.none, Or.inr rfl, by simp [newTask]⟩
    | true =>
      simp only [chain, hp] at h
      cases h
      exact ⟨rfl, rfl, rfl, rfl, htask Option.none, Or.inr rfl, by simp [newTask]⟩
  | some p =>
    have hpn : p ≠ newId := fun he => hpid (he ▸ hp)
    cases su with
    | false =>
      simp only [chain, hp] at h
      cases h
      exact ⟨rfl, rfl, rfl, rfl, htask (some p), Or.inr rfl, by simp [newTask]⟩
    | true =>
      simp only [chain, hp] at h
      rw [findId?_append_singleton _ _ _ (Ne.symm hpn)] at h
      split at h
      next hfound => simp at h
      next prec hfound =>
        by_cases hsucc : prec.status = .success
        · rw [if_pos hsucc, submit_eq,
            show (newTask sig (some p) (previous.map (fun x => x.id)) now ttl
              newId).id = newId from rfl, htask (some p)] at h
          split at h
          next heq => simp at heq
          next cur heq =>
            rw [Option.some_inj] at heq
            subst heq
            rw [if_neg (by simp [newTask]), if_pos (by simp [newTask])] at h
            cases h
            refine ⟨rfl, rfl, rfl, rfl, ?_, Or.inl rfl, ?_⟩
            · rw [findId?_update, htask (some p)]
              · simp [newTask]
              · intro r
                rfl
            · constructor
              · intro _
                exact ⟨rfl, p, prec, rfl, hfound, hsucc⟩
              · intro _
                rfl
        · rw [if_neg hsucc] at h
          cases h
          refine ⟨rfl, rfl, rfl, rfl, htask (some p), Or.inr rfl, ?_⟩
          constructor
          · intro hq
            simp [newTask] at hq
          · rintro ⟨_, pid, prec2, hpe, hf2, hs2⟩
            cases hpe
            rw [hfound] at hf2
            cases hf2
            exact absurd hs2 hsucc

/-- C6 witness: a fresh successor chained onto a `Running` predecessor whose
parent is `Success` is queued eagerly; the iff certifies that the decision
came from the resolved parent's status. -/
theorem C6_chain_gates_on_parent_status_witness :
    ((∀ r ∈ ([{ id := 1, status := Status.success }] : Store), r.id ≠ 7) ∧
     resolvedParent Option.none
        (some { id := 2, status := Status.running, parent := some 1 }) ≠ some 7 ∧
     chain [{ id := 1, status := Status.success }] { func_name := ['h'] }
        Option.none (some { id := 2, status := Status.running, parent := some 1 })
        true 7 100 1800 =
      .ok ([{ id := 1, status := Status.success },
            { id := 7, status := Status.queued, signature := { func_name := ['h'] },
              parent := some 1, previous := some 2, submitted := 100,
              result_ttl := 1800 }],
           { id := 7, status := Status.queued, signature := { func_name := ['h'] },
             parent := some 1, previous := some 2, submitted := 100,
             result_ttl := 1800 })) ∧
    (({ id := 7, status := Status.queued, signature := { func_name := ['h'] },
        parent := some 1, previous := some 2, submitted := 100,
        result_ttl := 1800 } : TaskRec).id = 7 ∧
     ({ id := 7, status := Status.queued, signature := { func_name := ['h'] },
        parent := some 1, previous := some 2, submitted := 100,
        result_ttl := 1800 } : TaskRec).signature = { func_name := ['h'] } ∧
     ({ id := 7, status := Status.queued, signature := { func_name := ['h'] },
        parent := some 1, previous := some 2, submitted := 100,
        result_ttl := 1800 } : TaskRec).previous =
       (some { id := 2, status := Status.running, parent := some 1 } :
         Option TaskRec).map (fun p => p.id) ∧
     ({ id := 7, status := Status.queued, signature := { func_name := ['h'] },
        parent := some 1, previous := some 2, submitted := 100,
        result_ttl := 1800 } : TaskRec).parent =
       resolvedParent Option.none
         (some { id := 2, status := Status.running, parent := some 1 }) ∧
     Store.findId?
        [{ id := 1, status := Status.success },
         { id := 7, status := Status.queued, signature := { func_name := ['h'] },
           parent := some 1, previous := some 2, submitted := 100,
           result_ttl := 1800 }] 7 =
       some { id := 7, status := Status.queued, signature := { func_name := ['h'] },
              parent := some 1, previous := some 2, submitted := 100,
              result_ttl := 1800 } ∧
     (({ id := 7, status := Status.queued, signature := { func_name := ['h'] },
         parent := some 1, previous := some 2, submitted := 100,
         result_ttl := 1800 } : TaskRec).status = .queued ∨
      ({ id := 7, status := Status.queued, signature := { func_name := ['h'] },
         parent := some 1, previous := some 2, submitted := 100,
         result_ttl := 1800 } : TaskRec).status = .pending) ∧
     (({ id := 7, status := Status.queued, signature := { func_name := ['h'] },
         parent := some 1, previous := some 2, submitted := 100,
         result_ttl := 1800 } : TaskRec).status = .queued ↔
       true = true ∧ ∃ pid prec,
         resolvedParent Option.none
             (some { id := 2, status := Status.running, parent := some 1 }) = some pid ∧
         Store.findId? [{ id := 1, status := Status.success }] pid = some prec ∧
         prec.status = .success)) :=
  ⟨⟨by decide, by decide, by decide⟩,
    C6_chain_gates_on_parent_status [{ id := 1, status := Status.success }]
      { func_name := ['h'] } Option.none
      (some { id := 2, status := Status.running, parent := some 1 }) true 7 100 1800
      [{ id := 1, status := Status.success },
       { id := 7, status := Status.queued, signature := { func_name := ['h'] },
         parent := some 1, previous := some 2, submitted := 100, result_ttl := 1800 }]
      { id := 7, status := Status.queued, signature := { func_name := ['h'] },
        parent := some 1, previous := some 2, submitted := 100, result_ttl := 1800 }
      (by decide) (by decide) (by decide)⟩

/-- The row a successful lookup returns carries the sought id. -/
theorem findId?_id (s : Store) (j : Nat) (x : TaskRec)
    (h : Store.findId? s j = some x) : x.id = j := by
  have := List.find?_some h
  simpa using this

/-- An argument-less `submit` preserves the id column. -/
theorem submit_map_id (n : TaskRec) (st st1 : Store) (n1 : TaskRec)
    (h : Task.submit n st [] = .ok (st1, n1)) :
    st1.map (fun r => r.id) = st.map (fun r => r.id) := by
  rw [submit_eq] at h
  cases hf : Store.findId? st n.id with
  | none => rw [hf] at h; simp at h
  | some cur =>
    rw [hf] at h
    by_cases h1 : cur.status = .revoked
    · simp [h1] at h
      rw [← h.1]
    · by_cases h2 : cur.status = .pending
      · simp [h1, h2] at h
        rw [← h.1]
        exact map_update st n.id _ _ (fun r => rfl)
      · simp [h1, h2] at h

/-- Row-wise effect of a successful argument-less `submit` on a store with
unique ids: the pending row with the submitted id becomes `Queued` and every
other row is untouched. -/
theorem submit_empty_ok_getElem (n : TaskRec) (st st1 : Store) (n1 : TaskRec)
    (hnd : (st.map (fun r => r.id)).Nodup)
    (h : Task.submit n st [] = .ok (st1, n1)) :
    ∀ (k : Nat) (r : TaskRec), st[k]? = some r →
      st1[k]? = some (if r.id = n.id ∧ r.status = .pending
        then { r with status := Status.queued } else r) := by
  intro k r hk
  rw [submit_eq] at h
  cases hf : Store.findId? st n.id with
  | none => rw [hf] at h; simp at h
  | some cur =>
    rw [hf] at h
    have hre : r.id = n.id → r = cur := by
      intro hid
      have h2 := findId?_getElem? st k r hnd hk
      rw [hid, hf] at h2
      exact (Option.some_inj.mp h2).symm
    by_cases h1 : cur.status = .revoked
    · simp [h1] at h
      rw [← h.1, hk]
      by_cases hid : r.id = n.id
      · rw [if_neg ?_]
        rintro ⟨-, hpd⟩
        rw [hre hid] at hpd
        rw [h1] at hpd
        simp at hpd
      · rw [if_neg (fun hc => hid hc.1)]
    · by_cases h2 : cur.status = .pending
      · simp [h1, h2] at h
        rw [← h.1, getElem?_update, hk]
        simp only [Option.map_some']
        by_cases hid : r.id = n.id
        · have hrc := hre hid
          subst hrc
          rw [if_pos hid, if_pos ⟨hid, h2⟩]
        · rw [if_neg hid, if_neg (fun hc => hid hc.1)]
      · simp [h1, h2] at h

/-- A sequence of argument-less submissions preserves ids and leaves every
row either untouched or queued. -/
theorem submitList_evolve (ns : List TaskRec) :
    ∀ (st st1 : Store), (st.map (fun r => r.id)).Nodup →
    submitList ns st = .ok st1 →
    (st1.map (fun r => r.id) = st.map (fun r => r.id)) ∧
    ∀ (k : Nat) (r : TaskRec), st[k]? = some r →
      st1[k]? = some r ∨ st1[k]? = some { r with status := Status.queued } := by
  induction ns with
  | nil =>
    intro st st1 _ h
    cases h
    exact ⟨rfl, fun k r hk => Or.inl hk⟩
  | cons n rest ih =>
    intro st st1 hnd h
    unfold submitList at h
    split at h
    next => simp at h
    next stA nA heq =>
      have hmapA := submit_map_id n st stA nA heq
      have hndA : (stA.map (fun r => r.id)).Nodup := by rw [hmapA]; exact hnd
      obtain ⟨hmap1, hpt⟩ := ih stA st1 hndA h
      refine ⟨hmap1.trans hmapA, ?_⟩
      intro k r hk
      have hA := submit_empty_ok_getElem n st stA nA hnd heq k r hk
      by_cases hc : r.id = n.id ∧ r.status = .pending
      · rw [if_pos hc] at hA
        cases hpt k _ hA with
        | inl e => exact Or.inr e
        | inr e => exact Or.inr e
      · rw [if_neg hc] at hA
        exact hpt k r hA

/-- Every pending member of the submission worklist ends up stored as
`Queued` (ids unique, worklist ids unique, worklist drawn from the store). -/
theorem submitList_queued (ns : List TaskRec) :
    ∀ (st st1 : Store), (st.map (fun r => r.id)).Nodup →
    (ns.map (fun r => r.id)).Nodup →
    (∀ n2 ∈ ns, n2 ∈ st) →
    submitList ns st = .ok st1 →
    ∀ n2 ∈ ns, n2.status = .pending →
      Store.findId? st1 n2.id = some { n2 with status := Status.queued } := by
  induction ns with
  | nil =>
    intro st st1 _ _ _ _ n2 hmem
    cases hmem
  | cons n rest ih =>
    intro st st1 hnd hndns hsub h n2 hmem hpend
    rw [List.map_cons, List.nodup_cons] at hndns
    unfold submitList at h
    split at h
    next => simp at h
    next stA nA heq =>
      have hmapA := submit_map_id n st stA nA heq
      have hndA : (stA.map (fun r => r.id)).Nodup := by rw [hmapA]; exact hnd
      cases hmem with
      | head =>
        obtain ⟨k, hk⟩ := List.getElem?_of_mem (hsub n (List.mem_cons_self n rest))
        have hA := submit_empty_ok_getElem n st stA nA hnd heq k n hk
        rw [if_pos ⟨rfl, hpend⟩] at hA
        obtain ⟨hm1, hpt⟩ := submitList_evolve rest stA st1 hndA h
        have hfin : st1[k]? = some { n with status := Status.queued } := by
          cases hpt k _ hA with
          | inl e => exact e
          | inr e => exact e
        have hnd1 : (st1.map (fun r => r.id)).Nodup := by
          rw [hm1, hmapA]; exact hnd
        exact findId?_getElem? st1 k _ hnd1 hfin
      | tail _ hmem2 =>
        refine ih stA st1 hndA hndns.2 ?_ h n2 hmem2 hpend
        intro m hm
        obtain ⟨km, hkm⟩ := List.getElem?_of_mem (hsub m (List.mem_cons_of_mem n hm))
        have hA := submit_empty_ok_getElem n st stA nA hnd heq km m hkm
        have hmn : m.id ≠ n.id := by
          intro he
          exact hndns.1 (he ▸ List.mem_map_of_mem (fun r => r.id) hm)
        rw [if_neg (fun hc => hmn hc.1)] at hA
        exact List.getElem?_mem hA

/-- `SuccEvolves` is reflexive. -/
theorem succEvolves_refl (s : Store) : SuccEvolves s s :=
  ⟨rfl, fun _ r hk => ⟨r, hk, rfl, rfl, rfl, Or.inl rfl⟩⟩

/-- `SuccEvolves` composes. -/
theorem succEvolves_trans {s1 s2 s3 : Store} (h1 : SuccEvolves s1 s2)
    (h2 : SuccEvolves s2 s3) : SuccEvolves s1 s3 := by
  obtain ⟨hm1, hp1⟩ := h1
  obtain ⟨hm2, hp2⟩ := h2
  refine ⟨hm2.trans hm1, ?_⟩
  intro k r hk
  obtain ⟨q1, hq1, hid1, hprev1, hsig1, hst1⟩ := hp1 k r hk
  obtain ⟨q2, hq2, hid2, hprev2, hsig2, hst2⟩ := hp2 k q1 hq1
  refine ⟨q2, hq2, hid2.trans hid1, hprev2.trans hprev1, hsig2.trans hsig1, ?_⟩
  rcases hst2 with he | he | he
  · rw [he]
    exact hst1
  · exact Or.inr (Or.inl he)
  · exact Or.inr (Or.inr he)

/-- An update whose row function keeps the id, `previous` link and signature
and moves the status only to `Success` or `Queued` (or keeps it) is a
`SuccEvolves` step. -/
theorem succEvolves_update (s : Store) (i : Nat) (f : TaskRec → TaskRec)
    (hf : ∀ r, (f r).id = r.id ∧ (f r).previous = r.previous ∧
      (f r).signature = r.signature ∧
      ((f r).status = r.status ∨ (f r).status = .success ∨
        (f r).status = .queued)) :
    SuccEvolves s (Store.update s i f) := by
  refine ⟨map_update s i f (fun r => r.id) (fun r => (hf r).1), ?_⟩
  intro k r hk
  rw [getElem?_update, hk]
  by_cases hid : r.id = i
  · exact ⟨f r, by simp [hid], (hf r).1, (hf r).2.1, (hf r).2.2.1, (hf r).2.2.2⟩
  · exact ⟨r, by simp [hid], rfl, rfl, rfl, Or.inl rfl⟩

/-- An argument-less `submit` is a `SuccEvolves` step. -/
theorem submit_succEvolves (n : TaskRec) (st st1 : Store) (n1 : TaskRec)
    (hnd : (st.map (fun r => r.id)).Nodup)
    (h : Task.submit n st [] = .ok (st1, n1)) : SuccEvolves st st1 := by
  refine ⟨submit_map_id n st st1 n1 h, ?_⟩
  intro k r hk
  have hA := submit_empty_ok_getElem n st st1 n1 hnd h k r hk
  by_cases hc : r.id = n.id ∧ r.status = .pending
  · rw [if_pos hc] at hA
    exact ⟨_, hA, rfl, rfl, rfl, Or.inr (Or.inr rfl)⟩
  · rw [if_neg hc] at hA
    exact ⟨r, hA, rfl, rfl, rfl, Or.inl rfl⟩

/-- A sequence of argument-less submissions is a `SuccEvolves` step. -/
theorem submitList_succEvolves (ns : List TaskRec) :
    ∀ (st st1 : Store), (st.map (fun r => r.id)).Nodup →
    submitList ns st = .ok st1 → SuccEvolves st st1 := by
  induction ns with
  | nil =>
    intro st st1 _ h
    cases h
    exact succEvolves_refl st
  | cons n rest ih =>
    intro st st1 hnd h
    unfold submitList at h
    split at h
    next => simp at h
    next stA nA heq =>
      have h1 := submit_succEvolves n st stA nA hnd heq
      have hndA : (stA.map (fun r => r.id)).Nodup := by
        rw [h1.1]
        exact hnd
      exact succEvolves_trans h1 (ih stA st1 hndA h)

/-- The whole success cascade — any fuel, any of the three entry calls — is a
`SuccEvolves` step whenever it returns `ok`: every row keeps its id,
`previous` link and signature, and a status changes only to `Success` (a
completing ancestor) or `Queued` (a submitted successor). -/
theorem succRun_evolves (fuel : Nat) :
    ∀ (now : Nat) (cache : Nat → List LogEntry) (store : Store)
      (call : SuccCall) (st : Store),
    (store.map (fun r => r.id)).Nodup →
    succRun fuel now cache store call = .ok st → SuccEvolves store st := by
  induction fuel with
  | zero =>
    intro now cache store call st _ h
    cases h
    exact succEvolves_refl store
  | succ n ih =>
    intro now cache store call st hnd h
    cases call with
    | succ i result =>
      simp only [succRun] at h
      split at h
      next => simp at h
      next t heq =>
        refine succEvolves_trans ?_ (ih now cache _ _ st ?_ h)
        · exact succEvolves_update store i _
            (fun r => ⟨rfl, rfl, rfl, Or.inr (Or.inl rfl)⟩)
        · rw [map_update]
          · exact hnd
          · intro r
            rfl
    | post i parentId result =>
      simp only [succRun] at h
      split at h
      next pid =>
        split at h
        next => simp at h
        next store2 heq2 =>
          have hev2 := ih now cache store _ store2 hnd heq2
          have hnd2 : (store2.map (fun r => r.id)).Nodup := by
            rw [hev2.1]
            exact hnd
          exact succEvolves_trans hev2
            (submitList_succEvolves (nextsOf store2 i) store2 st hnd2 h)
      next => exact submitList_succEvolves (nextsOf store i) store st hnd h
    | child pid childId result =>
      simp only [succRun] at h
      split at h
      next => simp at h
      next p heq =>
        by_cases hc : p.waiting_on = some childId ∧ p.status ∉ STATUS_ERROR
        · rw [if_pos hc] at h
          have hev1 : SuccEvolves store (Store.update store pid (fun r =>
              { r with details := { r.details with result := result } })) :=
            succEvolves_update store pid _
              (fun r => ⟨rfl, rfl, rfl, Or.inl rfl⟩)
          have hnd1 : ((Store.update store pid (fun r =>
              { r with details := { r.details with result := result } })).map
                (fun r => r.id)).Nodup := by
            rw [hev1.1]
            exact hnd
          split at h
          next hall => exact succEvolves_trans hev1 (ih now cache _ _ st hnd1 h)
          next hall =>
            cases h
            exact hev1
        · rw [if_neg hc] at h
          split at h
          next hall => exact ih now cache store _ st hnd h
          next hall =>
            cases h
            exact succEvolves_refl store

/-- If the whole submission loop returns `ok`, every worklist member — drawn
from a store with unique ids — has stored status `Pending` or `Revoked`: any
other status makes its `submit()` raise and abort the loop. -/
theorem submitList_status (ns : List TaskRec) :
    ∀ (st st1 : Store), (st.map (fun r => r.id)).Nodup →
    (ns.map (fun r => r.id)).Nodup →
    (∀ n2 ∈ ns, n2 ∈ st) →
    submitList ns st = .ok st1 →
    ∀ n2 ∈ ns, n2.status = .pending ∨ n2.status = .revoked := by
  induction ns with
  | nil =>
    intro st st1 _ _ _ _ n2 hmem
    cases hmem
  | cons n rest ih =>
    intro st st1 hnd hndns hsub h n2 hmem
    rw [List.map_cons, List.nodup_cons] at hndns
    unfold submitList at h
    split at h
    next => simp at h
    next stA nA heq =>
      cases hmem with
      | head =>
        obtain ⟨k, hk⟩ := List.getElem?_of_mem (hsub n (List.mem_cons_self n rest))
        have hfind : Store.findId? st n.id = some n :=
          findId?_getElem? st k n hnd hk
        by_cases h1 : n.status = .revoked
        · exact Or.inr h1
        · by_cases h2 : n.status = .pending
          · exact Or.inl h2
          · rw [submit_eq, hfind] at heq
            simp [h1, h2] at heq
      | tail _ hmem2 =>
        have hndA : (stA.map (fun r => r.id)).Nodup := by
          rw [submit_map_id n st stA nA heq]
          exact hnd
        refine ih stA st1 hndA hndns.2 ?_ h n2 hmem2
        intro m hm
        obtain ⟨km, hkm⟩ := List.getElem?_of_mem (hsub m (List.mem_cons_of_mem n hm))
        have hA := submit_empty_ok_getElem n st stA nA hnd heq km m hkm
        have hmn : m.id ≠ n.id := by
          intro he
          exact hndns.1 (he ▸ List.mem_map_of_mem (fun r => r.id) hm)
        rw [if_neg (fun hc => hmn hc.1)] at hA
        exact List.getElem?_mem hA

/-- C3 (amended): when any task `T` — with or without a parent — succeeds,
`post_success` calls `submit()` on each successor with NO extra positional
argument: every row's stored signature (in particular its argument list) is
unchanged across the entire cascade, and every `Pending` successor row ends
up `Queued` with the same signature. `T`'s result reaches a chained successor
at `start()` time instead, where it is prepended to the call arguments. -/
theorem C3_successors_submitted_without_result (fuel now : Nat)
    (cache : Nat → List LogEntry) (store : Store) (i : Nat) (res : Option Val)
    (st : Store) (t : TaskRec)
    (hnd : (store.map (fun r => r.id)).Nodup)
    (ht : Store.findId? store i = some t)
    (h : Task.success (fuel + 2) now cache store i res = .ok st) :
    (∀ (k : Nat) (r : TaskRec), store[k]? = some r →
      ∃ q, st[k]? = some q ∧ q.signature = r.signature) ∧
    (∀ r ∈ store, r.previous = some i → r.status = .pending → r.id ≠ i →
      ∃ q, Store.findId? st r.id = some q ∧ q.status = .queued ∧
        q.signature = r.signature) ∧
    (∀ (u : TaskRec) (rv : Val),
      (Task.start_call u (some rv)).args = rv :: u.signature.args) := by
  refine ⟨?_, ?_, fun u rv => rfl⟩
  · intro k r hk
    obtain ⟨-, hpt⟩ :=
      succRun_evolves (fuel + 2) now cache store (.succ i res) st hnd h
    obtain ⟨q, hq, -, -, hsig, -⟩ := hpt k r hk
    exact ⟨q, hq, hsig⟩
  · unfold Task.success at h
    rw [show fuel + 2 = (fuel + 1) + 1 from rfl] at h
    simp only [succRun, ht] at h
    set store1 := Store.update store i (fun r =>
      { r with
        status := Status.success
        details := { (match res with
            | some rv => { t.details with result := some rv }
            | Option.none => t.details) with logs := some (cache i) }
        finished := some now
        result_expiry := some (now + t.result_ttl) }) with hs1
    have hnd1 : (store1.map (fun r => r.id)).Nodup := by
      rw [hs1, map_update]
      · exact hnd
      · intro r
        rfl
    have hcore : ∀ store2 : Store, SuccEvolves store1 store2 →
        submitList (nextsOf store2 i) store2 = .ok st →
        ∀ r ∈ store, r.previous = some i → r.status = .pending → r.id ≠ i →
          ∃ q, Store.findId? st r.id = some q ∧ q.status = .queued ∧
            q.signature = r.signature := by
      intro store2 hev hsub r hr hprev hpend hne
      obtain ⟨k, hk⟩ := List.getElem?_of_mem hr
      have hk1 : store1[k]? = some r := by
        rw [hs1, getElem?_update, hk]
        simp [hne]
      obtain ⟨hmap2, hpt2⟩ := hev
      obtain ⟨r2, hk2, hid2, hprev2, hsig2, hstat2⟩ := hpt2 k r hk1
      have hr2next : r2 ∈ nextsOf store2 i := by
        rw [nextsOf, List.mem_filter]
        exact ⟨List.getElem?_mem hk2, by simp [hprev2, hprev]⟩
      have hnd2 : (store2.map (fun r => r.id)).Nodup := by
        rw [hmap2]
        exact hnd1
      have hnsnd : ((nextsOf store2 i).map (fun r => r.id)).Nodup :=
        ((List.filter_sublist store2).map (fun r => r.id)).nodup hnd2
      have hnsmem : ∀ m ∈ nextsOf store2 i, m ∈ store2 :=
        fun m hm => List.mem_of_mem_filter hm
      have hstat : r2.status = .pending := by
        rcases hstat2 with he | he | he
        · rw [he]
          exact hpend
        · exfalso
          rcases submitList_status (nextsOf store2 i) store2 st hnd2 hnsnd
              hnsmem hsub r2 hr2next with hp2 | hp2 <;>
            rw [he] at hp2 <;> cases hp2
        · exfalso
          rcases submitList_status (nextsOf store2 i) store2 st hnd2 hnsnd
              hnsmem hsub r2 hr2next with hp2 | hp2 <;>
            rw [he] at hp2 <;> cases hp2
      have hq := submitList_queued (nextsOf store2 i) store2 st hnd2 hnsnd
        hnsmem hsub r2 hr2next hstat
      rw [← hid2]
      exact ⟨{ r2 with status := Status.queued }, hq, rfl, hsig2⟩
    split at h
    next pid hpar =>
      split at h
      next => simp at h
      next store2 heq2 =>
        exact hcore store2
          (succRun_evolves fuel now cache store1 _ store2 hnd1 heq2) h
    next hpar => exact hcore store1 (succEvolves_refl store1) h

/-- C3 (amended) witness: task 1 succeeds with result 5; its pending
successor 2 keeps stored arguments `[7]` and is queued; `start` with an
upstream result prepends it to the call arguments. -/
theorem C3_successors_submitted_without_result_witness :
    (((([{ id := 1, status := Status.running, signature := { func_name := ['f'] } },
         { id := 2, status := Status.pending,
           signature := { func_name := ['g'], args := [7] },
           previous := some 1 }] : Store).map (fun r => r.id)).Nodup) ∧
     Store.findId?
        [{ id := 1, status := Status.running, signature := { func_name := ['f'] } },
         { id := 2, status := Status.pending,
           signature := { func_name := ['g'], args := [7] },
           previous := some 1 }] 1 =
       some { id := 1, status := Status.running,
              signature := { func_name := ['f'] } } ∧
     Task.success 3 100 (fun _ => [])
        [{ id := 1, status := Status.running, signature := { func_name := ['f'] } },
         { id := 2, status := Status.pending,
           signature := { func_name := ['g'], args := [7] },
           previous := some 1 }] 1 (some 5) =
       .ok [{ id := 1, status := Status.success,
              signature := { func_name := ['f'] },
              details := { result := some 5, logs := some [] },
              finished := some 100, result_expiry := some 1900 },
            { id := 2, status := Status.queued,
              signature := { func_name := ['g'], args := [7] },
              previous := some 1 }]) ∧
    ((∀ (k : Nat) (r : TaskRec),
        ([{ id := 1, status := Status.running, signature := { func_name := ['f'] } },
          { id := 2, status := Status.pending,
            signature := { func_name := ['g'], args := [7] },
            previous := some 1 }] : Store)[k]? = some r →
        ∃ q, ([{ id := 1, status := Status.success,
                 signature := { func_name := ['f'] },
                 details := { result := some 5, logs := some [] },
                 finished := some 100, result_expiry := some 1900 },
               { id := 2, status := Status.queued,
                 signature := { func_name := ['g'], args := [7] },
                 previous := some 1 }] : Store)[k]? = some q ∧
          q.signature = r.signature) ∧
     (∀ r ∈ ([{ id := 1, status := Status.running,
                signature := { func_name := ['f'] } },
              { id := 2, status := Status.pending,
                signature := { func_name := ['g'], args := [7] },
                previous := some 1 }] : Store),
        r.previous = some 1 → r.status = .pending → r.id ≠ 1 →
        ∃ q, Store.findId?
            [{ id := 1, status := Status.success,
               signature := { func_name := ['f'] },
               details := { result := some 5, logs := some [] },
               finished := some 100, result_expiry := some 1900 },
             { id := 2, status := Status.queued,
               signature := { func_name := ['g'], args := [7] },
               previous := some 1 }] r.id =
          some q ∧ q.status = .queued ∧ q.signature = r.signature) ∧
     (∀ (u : TaskRec) (rv : Val),
       (Task.start_call u (some rv)).args = rv :: u.signature.args)) :=
  ⟨⟨by decide, by decide, by decide⟩,
    C3_successors_submitted_without_result 1 100 (fun _ => [])
      [{ id := 1, status := Status.running, signature := { func_name := ['f'] } },
       { id := 2, status := Status.pending,
         signature := { func_name := ['g'], args := [7] },
         previous := some 1 }] 1 (some 5)
      [{ id := 1, status := Status.success,
         signature := { func_name := ['f'] },
         details := { result := some 5, logs := some [] },
         finished := some 100, result_expiry := some 1900 },
       { id := 2, status := Status.queued,
         signature := { func_name := ['g'], args := [7] },
         previous := some 1 }]
      { id := 1, status := Status.running, signature := { func_name := ['f'] } }
      (by decide) (by decide) (by decide)⟩

/-- C6 counterexample: chaining onto predecessor 2, which is `Running` (not
`Success`) but whose parent 1 is `Success`, submits the successor eagerly at
chain time: the new task is created `Queued`, not left `Pending`. -/
theorem C6_eager_submit_with_running_predecessor :
    (chain [{ id := 1, status := Status.success },
            { id := 2, status := Status.running, parent := some 1 }]
        { func_name := ['h'] } Option.none
        (some { id := 2, status := Status.running, parent := some 1 })
        true 7 100 1800).map (fun x => (x.2.status, x.2.previous, x.2.parent)) =
      .ok (Status.queued, some 2, some 1) := by decide

/-- `\d+` consumes a nonempty prefix of digits. -/
theorem munchDigits_spec (s r : List Char) (h : munchDigits s = some r) :
    ∃ pre, s = pre ++ r ∧ pre ≠ [] ∧ ∀ c ∈ pre, c.isDigit = true := by
  cases s with
  | nil => simp [munchDigits] at h
  | cons c cs =>
    rw [munchDigits] at h
    by_cases hc : c.isDigit
    · rw [if_pos hc, Option.some_inj] at h
      refine ⟨c :: cs.takeWhile Char.isDigit, ?_, by simp, ?_⟩
      · rw [← h]
        simp [List.takeWhile_append_dropWhile]
      · intro x hx
        cases hx with
        | head => exact hc
        | tail _ hx2 => exact List.mem_takeWhile_imp hx2
    · rw [if_neg hc] at h
      cases h

/-- `\d+(-\d+)?` consumes a nonempty prefix of grammar characters. -/
theorem munchItem_spec (s r : List Char) (h : munchItem s = some r) :
    ∃ pre, s = pre ++ r ∧ pre ≠ [] ∧ ∀ c ∈ pre, isGrammarChar c = true := by
  unfold munchItem at h
  split at h
  next => cases h
  next r2 hd =>
    obtain ⟨pre1, he1, hne1, hd1⟩ := munchDigits_spec s ('-' :: r2) hd
    obtain ⟨pre2, he2, hne2, hd2⟩ := munchDigits_spec r2 r h
    refine ⟨pre1 ++ '-' :: pre2, ?_, by simp, ?_⟩
    · rw [he1, he2]
      simp
    · intro c hc
      rcases List.mem_append.mp hc with hc1 | hc2
      · simp [isGrammarChar, hd1 c hc1]
      · cases hc2 with
        | head => simp [isGrammarChar]
        | tail _ hc3 => simp [isGrammarChar, hd2 c hc3]
  next r1 hside heq =>
    rw [Option.some_inj] at h
    subst h
    obtain ⟨pre1, he1, hne1, hd1⟩ := munchDigits_spec s r1 heq
    exact ⟨pre1, he1, hne1, fun c hc => by simp [isGrammarChar, hd1 c hc]⟩

/-- `\d+(-\d+)?(,\d+(-\d+)?)*` consumes a prefix of grammar characters. -/
theorem munchItemsF_spec (fuel : Nat) :
    ∀ (s r : List Char), munchItemsF fuel s = some r →
      ∃ pre, s = pre ++ r ∧ ∀ c ∈ pre, isGrammarChar c = true := by
  induction fuel with
  | zero => intro s r h; cases h
  | succ n ih =>
    intro s r h
    rw [munchItemsF] at h
    split at h
    next => cases h
    next r2 hi =>
      obtain ⟨pre1, he1, hne1, hg1⟩ := munchItem_spec s (',' :: r2) hi
      obtain ⟨pre2, he2, hg2⟩ := ih r2 r h
      refine ⟨pre1 ++ ',' :: pre2, ?_, ?_⟩
      · rw [he1, he2]
        simp
      · intro c hc
        rcases List.mem_append.mp hc with hc1 | hc2
        · exact hg1 c hc1
        · cases hc2 with
          | head => simp [isGrammarChar]
          | tail _ hc3 => exact hg2 c hc3
    next r1 hside heq =>
      rw [Option.some_inj] at h
      subst h
      obtain ⟨pre1, he1, hne1, hg1⟩ := munchItem_spec s r1 heq
      exact ⟨pre1, he1, hg1⟩

/-- The characters of a matched `(/\d+)?$` tail are grammar characters. -/
theorem matchTail_chars (r : List Char) (h : matchTail r = true) :
    ∀ c ∈ r, isGrammarChar c = true := by
  cases r with
  | nil => intro c hc; cases hc
  | cons c0 r2 =>
    rw [matchTail] at h
    by_cases hc0 : c0 = '/'
    · rw [if_pos hc0] at h
      intro c hc
      cases hc with
      | head => subst hc0; simp [isGrammarChar]
      | tail _ hc2 =>
        split at h
        next hd =>
          obtain ⟨pre, he, hne, hdg⟩ := munchDigits_spec r2 [] hd
          rw [List.append_nil] at he
          subst he
          simp [isGrammarChar, hdg c hc2]
        next => cases h
    · rw [if_neg hc0] at h
      cases h

/-- Every string the cron field regular expression accepts is nonempty and
made of grammar characters only. -/
theorem matchField_chars (s : List Char) (h : matchField s = true) :
    ∀ c ∈ s, isGrammarChar c = true := by
  cases s with
  | nil => intro c hc; cases hc
  | cons c0 r =>
    rw [matchField] at h
    by_cases hc0 : c0 = '*'
    · rw [if_pos hc0] at h
      intro c hc
      cases hc with
      | head => subst hc0; simp [isGrammarChar]
      | tail _ hc2 => exact matchTail_chars r h c hc2
    · rw [if_neg hc0] at h
      split at h
      next rest hitems =>
        obtain ⟨pre, he, hg⟩ := munchItemsF_spec _ _ _ hitems
        intro c hc
        rw [he] at hc
        rcases List.mem_append.mp hc with hc1 | hc2
        · exact hg c hc1
        · exact matchTail_chars rest h c hc2
      next => cases h

/-- Grammar characters are not Python whitespace. -/
theorem grammar_not_space (c : Char) (h : isGrammarChar c = true) :
    isPySpace c = false := by
  cases hb : isPySpace c
  · rfl
  · rw [isPySpace] at hb
    simp only [Bool.or_eq_true, decide_eq_true_eq] at hb
    rcases hb with ((((hb | hb) | hb) | hb) | hb) | hb <;> subst hb <;>
      exact absurd h (by decide)

/-- `joinSep` of nonempty fields is nonempty. -/
theorem joinSep_ne_nil (cols : List (List Char)) (h1 : cols ≠ [])
    (h2 : ∀ c ∈ cols, c ≠ []) : joinSep cols ≠ [] := by
  cases cols with
  | nil => exact absurd rfl h1
  | cons w ws =>
    cases ws with
    | nil => exact h2 w (List.mem_cons_self w [])
    | cons x xs =>
      show w ++ ' ' :: joinSep (x :: xs) ≠ []
      simp

/-- The head of `joinSep` is the head of the first field. -/
theorem joinSep_head? (w : List Char) (ws : List (List Char)) (hw : w ≠ []) :
    (joinSep (w :: ws)).head? = w.head? := by
  cases ws with
  | nil => rfl
  | cons x xs =>
    show (w ++ ' ' :: joinSep (x :: xs)).head? = w.head?
    cases w with
    | nil => exact absurd rfl hw
    | cons c cs => rfl

/-- The last character of `joinSep` is the last character of some field. -/
theorem joinSep_getLast? (cols : List (List Char)) (h1 : cols ≠ [])
    (h2 : ∀ c ∈ cols, c ≠ []) :
    ∃ w ∈ cols, (joinSep cols).getLast? = w.getLast? := by
  induction cols with
  | nil => exact absurd rfl h1
  | cons w ws ih =>
    cases ws with
    | nil => exact ⟨w, List.mem_cons_self w [], rfl⟩
    | cons x xs =>
      obtain ⟨w2, hmem, hlast⟩ :=
        ih (by simp) (fun c hc => h2 c (List.mem_cons_of_mem w hc))
      refine ⟨w2, List.mem_cons_of_mem w hmem, ?_⟩
      show (w ++ ' ' :: joinSep (x :: xs)).getLast? = w2.getLast?
      rw [List.getLast?_append_of_ne_nil _ (by simp)]
      have hne : joinSep (x :: xs) ≠ [] :=
        joinSep_ne_nil (x :: xs) (by simp)
          (fun c hc => h2 c (List.mem_cons_of_mem w hc))
      cases hj : joinSep (x :: xs) with
      | nil => exact absurd hj hne
      | cons d ds =>
        rw [List.getLast?_cons_cons, ← hj, hlast]

/-- A list whose head is not matched by `p` is fixed by `dropWhile p`. -/
theorem dropWhile_eq_self_of_head (p : Char → Bool) (l : List Char)
    (h : ∀ ch, l.head? = some ch → p ch = false) : l.dropWhile p = l := by
  cases l with
  | nil => rfl
  | cons c cs =>
    rw [List.dropWhile_cons, if_neg (by simp [h c rfl])]

/-- `strip` is the identity when neither end is whitespace. -/
theorem pyStrip_eq_self (l : List Char)
    (h1 : ∀ ch, l.head? = some ch → isPySpace ch = false)
    (h2 : ∀ ch, l.getLast? = some ch → isPySpace ch = false) :
    pyStrip l = l := by
  unfold pyStrip
  rw [dropWhile_eq_self_of_head _ _ h1,
      dropWhile_eq_self_of_head _ _
        (fun ch hch => h2 ch (by rwa [List.head?_reverse] at hch)),
      List.reverse_reverse]

/-- Scanning a whitespace-free word accumulates it. -/
theorem splitWsAux_word (w : List Char) :
    ∀ (s acc : List Char), (∀ c ∈ w, isPySpace c = false) →
      splitWsAux (w ++ s) acc = splitWsAux s (w.reverse ++ acc) := by
  induction w with
  | nil => intro s acc _; rfl
  | cons c cs ih =>
    intro s acc h
    show splitWsAux (c :: (cs ++ s)) acc = _
    rw [splitWsAux]
    rw [if_neg (by simp [h c (List.mem_cons_self c cs)])]
    rw [ih s (c :: acc) (fun x hx => h x (List.mem_cons_of_mem c hx))]
    rw [List.reverse_cons, List.append_assoc]
    rfl

/-- `split()` recovers the fields from their single-space joint, provided
each field is nonempty and whitespace-free. -/
theorem pySplitWs_joinSep (cols : List (List Char))
    (h : ∀ c ∈ cols, c ≠ [] ∧ ∀ ch ∈ c, isPySpace ch = false) :
    pySplitWs (joinSep cols) = cols := by
  induction cols with
  | nil => rfl
  | cons w ws ih =>
    have hw : w ≠ [] := (h w (List.mem_cons_self w ws)).1
    have hwsp : ∀ ch ∈ w, isPySpace ch = false :=
      (h w (List.mem_cons_self w ws)).2
    cases ws with
    | nil =>
      show pySplitWs w = [w]
      unfold pySplitWs
      have := splitWsAux_word w [] [] hwsp
      rw [List.append_nil] at this
      rw [this, List.append_nil, splitWsAux,
          if_neg (by simp [hw]), List.reverse_reverse]
    | cons x xs =>
      show pySplitWs (w ++ ' ' :: joinSep (x :: xs)) = w :: x :: xs
      unfold pySplitWs
      rw [splitWsAux_word w _ [] hwsp, List.append_nil, splitWsAux,
          if_pos (by decide), if_neg (by simp [hw]), List.reverse_reverse]
      have := ih (fun c hc => h c (List.mem_cons_of_mem w hc))
      unfold pySplitWs at this
      rw [this]

/-- `joinSep` agrees with single-space `intercalate`. -/
theorem joinSep_eq_intercalate (cols : List (List Char)) :
    joinSep cols = [' '].intercalate cols := by
  induction cols with
  | nil => rfl
  | cons w ws ih =>
    cases ws with
    | nil => simp [joinSep, List.intercalate]
    | cons x xs =>
      show w ++ ' ' :: joinSep (x :: xs) = _
      rw [show [' '].intercalate (w :: x :: xs) =
          w ++ [' '] ++ [' '].intercalate (x :: xs) from by
        simp [List.intercalate, List.intersperse], ← ih]
      simp

/-- C9: `validate_cron` accepts a value iff the value consists of exactly
five single-space-separated fields — hence no leading/trailing whitespace,
no tabs and no double spaces, since a matched field is nonempty and contains
no whitespace — each matching the cron field regular expression
`*|\d+(-\d+)?(,\d+(-\d+)?)*` with optional `/\d+` suffix. -/
theorem C9_validate_cron_iff (v : List Char) :
    validate_cron v = .ok () ↔
    ∃ cols : List (List Char), cols.length = 5 ∧ v = joinSep cols ∧
      ∀ c ∈ cols, matchField c = true := by
  constructor
  · intro h
    simp only [validate_cron] at h
    split at h
    next => simp at h
    next hstrip =>
    split at h
    next => simp at h
    next hsep =>
    split at h
    next => simp at h
    next hlen =>
    split at h
    case isFalse => simp at h
    case isTrue hall =>
    have hsep2 : pySplitWs v = v.splitOn ' ' := not_not.mp hsep
    have hlen2 : (pySplitWs v).length = 5 := not_not.mp hlen
    refine ⟨v.splitOn ' ', ?_, ?_, ?_⟩
    · rw [← hsep2]
      exact hlen2
    · rw [joinSep_eq_intercalate]
      exact (List.intercalate_splitOn v ' ').symm
    · intro c hc
      rw [← hsep2] at hc
      exact List.all_eq_true.mp hall c hc
  · rintro ⟨cols, hlen, hv, hmatch⟩
    subst hv
    have hgood : ∀ c ∈ cols, c ≠ [] ∧ ∀ ch ∈ c, isPySpace ch = false := by
      intro c hc
      have hmc := hmatch c hc
      constructor
      · intro he
        subst he
        exact absurd hmc (by decide)
      · intro ch hch
        exact grammar_not_space ch (matchField_chars c hmc ch hch)
    have hne : cols ≠ [] := by
      intro he
      subst he
      simp at hlen
    have hsplitWs : pySplitWs (joinSep cols) = cols := pySplitWs_joinSep cols hgood
    have hsplitOn : (joinSep cols).splitOn ' ' = cols := by
      rw [joinSep_eq_intercalate]
      refine List.splitOn_intercalate cols ' ' ?_ hne
      intro l hl hsp
      have := (hgood l hl).2 ' ' hsp
      exact absurd this (by decide)
    have hstrip : pyStrip (joinSep cols) = joinSep cols := by
      apply pyStrip_eq_self
      · intro ch hch
        cases cols with
        | nil => exact absurd rfl hne
        | cons w ws =>
          rw [joinSep_head? w ws (hgood w (List.mem_cons_self w ws)).1] at hch
          exact (hgood w (List.mem_cons_self w ws)).2 ch
            (List.mem_of_mem_head? hch)
      · intro ch hch
        obtain ⟨w2, hmem, hlast⟩ :=
          joinSep_getLast? cols hne (fun c hc => (hgood c hc).1)
        rw [hlast] at hch
        exact (hgood w2 hmem).2 ch (List.mem_of_mem_getLast? hch)
    unfold validate_cron
    rw [hsplitWs, hsplitOn, if_neg (not_not_intro hstrip),
        if_neg (not_not_intro rfl), if_neg (not_not_intro hlen),
        if_pos (List.all_eq_true.mpr (fun c hc => hmatch c hc))]

/-- C9 witness: the default schedule `* * * * *` is accepted, via the
five-field decomposition. -/
theorem C9_validate_cron_iff_witness :
    validate_cron ['*', ' ', '*', ' ', '*', ' ', '*', ' ', '*'] = .ok () :=
  (C9_validate_cron_iff ['*', ' ', '*', ' ', '*', ' ', '*', ' ', '*']).mpr
    ⟨[['*'], ['*'], ['*'], ['*'], ['*']], by decide, by decide, by decide⟩

end CQ
